import Mathlib

/-!
Verification development for the Blackhole automation repository.

The definitions below are a shallow embedding of the Python sources:
 - `RetrievalEngine._parse_tables_in_page` (HTML-table parsing over a DOM-level input),
 - the multi-IP retrieve aggregation loop in `BlackholeGUI.do_retrieve`,
 - `BlackholeCreator.submit_blackholes_http` (per-IP retry loop) from `CreateBlackhole.py`,
 - the CREATE batch path (`create_single_ip` worker and the harvesting loop) in `BlackholeGUI.run_create`,
 - `BatchRemoval.batch_post_views`,
 - the 401-status checks of `RetrievalEngine._http_fetch_and_parse`,
 - the per-thread session pool of `PlayWrightUtil.PlaywrightClient`.

Network responses, exceptions and the cancellation flag are environment inputs
(functions supplied to the embedded code); everything else follows the source.
-/

/-! ### Python string primitives -/

/-- Python `str` ASCII whitespace (space, tab, newline, return, vertical tab, form feed). -/
def is_py_space (c : Char) : Bool :=
  c = ' ' || c = '\t' || c = '\n' || c = '\r' || c = '\x0b' || c = '\x0c'

/-- Python `str.strip()` over the ASCII whitespace characters. -/
def py_strip (s : String) : String :=
  ⟨((s.data.dropWhile is_py_space).reverse.dropWhile is_py_space).reverse⟩

/-- Python `str.lower()` (ASCII case folding, as used on the portal pages). -/
def py_lower (s : String) : String :=
  ⟨s.data.map Char.toLower⟩

/-- Whether the character list `l` starts with the pattern `p`. -/
def chars_starts_with : List Char → List Char → Bool
  | [], _ => true
  | _ :: _, [] => false
  | p :: ps, c :: cs => p = c && chars_starts_with ps cs

/-- Whether the pattern occurs somewhere in the character list (Python `in` on strings). -/
def chars_contains : List Char → List Char → Bool
  | [], pat => pat.isEmpty
  | c :: rest, pat => chars_starts_with pat (c :: rest) || chars_contains rest pat

/-- Python substring test `pat in s`. -/
def py_contains (s pat : String) : Bool :=
  chars_contains s.data pat.data

/-- Line-break characters recognised by the model of Python `str.splitlines`
(newline, carriage return, vertical tab, form feed; the rarer Unicode breaks
are not used by the portal pages). -/
def is_line_break (c : Char) : Bool :=
  c = '\n' || c = '\r' || c = '\x0b' || c = '\x0c'

/-- Worker for `py_splitlines`: accumulates the current line (reversed) in
`cur`; a `\r\n` pair counts as one break.  The fuel argument only bounds the
recursion; `length + 1` always suffices because every step consumes at least
one character. -/
def splitlines_go : Nat → List Char → List Char → List (List Char)
  | 0, _, cur => [cur.reverse]
  | _ + 1, [], cur => [cur.reverse]
  | fuel + 1, '\r' :: '\n' :: rest, cur =>
    cur.reverse :: (if rest.isEmpty then [] else splitlines_go fuel rest [])
  | fuel + 1, c :: rest, cur =>
    if is_line_break c then cur.reverse :: (if rest.isEmpty then [] else splitlines_go fuel rest [])
    else splitlines_go fuel rest (c :: cur)

/-- Python `str.splitlines()`: no trailing empty line after a final break, and
the empty string gives an empty list. -/
def py_splitlines (s : String) : List String :=
  match s.data with
  | [] => []
  | l => (splitlines_go (l.length + 1) l []).map fun cs => ⟨cs⟩

/-- Modelled subset of Python `html.unescape`: the named entities that occur on
the portal pages (the full Python table has thousands of entries; none of the
verified properties depend on which entities are translated). -/
def unescape_go : List Char → List Char
  | '&' :: 'a' :: 'm' :: 'p' :: ';' :: r => '&' :: unescape_go r
  | '&' :: 'l' :: 't' :: ';' :: r => '<' :: unescape_go r
  | '&' :: 'g' :: 't' :: ';' :: r => '>' :: unescape_go r
  | '&' :: 'q' :: 'u' :: 'o' :: 't' :: ';' :: r => '"' :: unescape_go r
  | '&' :: 'n' :: 'b' :: 's' :: 'p' :: ';' :: r => ' ' :: unescape_go r
  | c :: rest => c :: unescape_go rest
  | [] => []

/-- Model of `html.unescape` on the entity subset above. -/
def py_unescape (s : String) : String :=
  ⟨unescape_go s.data⟩

/-! ### The table parser (`RetrievalEngine._parse_tables_in_page`)

The parser walks the DOM produced by Playwright.  The embedding works on the
DOM-level input: a page is a list of tables, a table a list of `tr` elements,
each carrying its `th` elements and its `td` elements with their extracted
`inner_text` and raw `inner_html`. -/

/-- A `th` element as seen through `inner_text()`. -/
structure Th where
  inner_text : String
deriving DecidableEq

/-- A `td` element as seen through `inner_text()` and `inner_html()`. -/
structure Td where
  inner_text : String
  inner_html : String
deriving DecidableEq

/-- A `tr` element with its `th` and `td` children. -/
structure Tr where
  ths : List Th
  tds : List Td
deriving DecidableEq

/-- A parsed row: either a header row (from `th` cells) or a data row. -/
structure Row where
  header : Bool
  cells : List String
deriving DecidableEq

/-- Matches the tail of the regex `<br\s*/?>` after the letters `br`:
optional whitespace, an optional slash, then `>`.  Returns the rest of the
input on a match. -/
def br_tail_close : List Char → Option (List Char)
  | '>' :: rest => some rest
  | '/' :: '>' :: rest => some rest
  | c :: rest => if is_py_space c then br_tail_close rest else none
  | [] => none

/-- Matches `br\s*/?>` (case-insensitive `br`) at the head of the input. -/
def br_match (l : List Char) : Option (List Char) :=
  match l with
  | b :: r :: rest =>
    if (b = 'b' || b = 'B') && (r = 'r' || r = 'R') then br_tail_close rest else none
  | _ => none

/-- Replaces every match of `<br\s*/?>` by a newline.  The fuel argument only
bounds the recursion; `length + 1` always suffices because every step consumes
at least one character. -/
def br_sub_go : Nat → List Char → List Char
  | 0, l => l
  | _ + 1, [] => []
  | fuel + 1, '<' :: rest =>
    match br_match rest with
    | some rest' => '\n' :: br_sub_go fuel rest'
    | none => '<' :: br_sub_go fuel rest
  | fuel + 1, c :: rest => c :: br_sub_go fuel rest

/-- Model of `re.sub(r"<br\s*/?>", "\n", html, flags=re.IGNORECASE)`. -/
def br_sub (s : String) : String :=
  ⟨br_sub_go (s.data.length + 1) s.data⟩

/-- Scans for the first `>` and returns the rest of the input. -/
def tag_end : List Char → Option (List Char)
  | [] => none
  | '>' :: rest => some rest
  | _ :: rest => tag_end rest

/-- Removes every match of `<[^>]+>`.  The fuel argument only bounds the
recursion; `length + 1` always suffices. -/
def strip_tags_go : Nat → List Char → List Char
  | 0, l => l
  | _ + 1, [] => []
  | fuel + 1, '<' :: rest =>
    (match rest with
     | '>' :: _ => '<' :: strip_tags_go fuel rest
     | _ =>
       match tag_end rest with
       | some rest' => strip_tags_go fuel rest'
       | none => '<' :: strip_tags_go fuel rest)
  | fuel + 1, c :: rest => c :: strip_tags_go fuel rest

/-- Model of `re.sub(r"<[^>]+>", "", text)`. -/
def strip_tags (s : String) : String :=
  ⟨strip_tags_go (s.data.length + 1) s.data⟩

/-- Cell-text extraction from a `td` element (source lines 145 to 151 of
`RetrievalEngine.py`): `br` tags become newlines, entities are unescaped, the
remaining tags are stripped, and the stripped non-empty lines are re-joined
with newlines. -/
def extract_cell (raw_html : String) : String :=
  let normalized := br_sub raw_html
  let unescaped := py_unescape normalized
  let text_only := strip_tags unescaped
  let lines := (py_splitlines text_only).map py_strip
  String.intercalate "\n" (lines.filter fun ln => ln ≠ "")

/-- Banner text of a row: the stripped `td` texts joined with spaces, lowered. -/
def banner_text (tds : List Td) : String :=
  py_lower (String.intercalate " " (tds.map fun td => py_strip td.inner_text))

/-- Processes one `tr` as a data row (source lines 135 to 155): rows without
`td` cells and banner rows are skipped; a row is kept only when at least one
extracted cell is non-empty. -/
def proc_tr (out : List Row) (tr : Tr) : List Row :=
  if tr.tds.isEmpty then out
  else if py_contains (banner_text tr.tds) "logged in as"
       || py_contains (banner_text tr.tds) "blackhole route" then out
  else if (tr.tds.map fun td => extract_cell td.inner_html).any (fun c => c ≠ "") then
    out ++ [⟨false, tr.tds.map fun td => extract_cell td.inner_html⟩]
  else out

/-- Processes one table (source lines 114 to 155): the first `tr` with `th`
cells becomes the header row (kept only when some header text is non-empty),
and the rows after it are processed as data rows. -/
def proc_table (out : List Row) (trs : List Tr) : List Row :=
  if trs.isEmpty then out
  else
    match trs.findIdx? (fun tr => !tr.ths.isEmpty) with
    | some i =>
      let headers := (trs.getD i ⟨[], []⟩).ths.map fun th => py_strip th.inner_text
      let out1 := if headers.any (fun h => h ≠ "") then out ++ [⟨true, headers⟩] else out
      (trs.drop (i + 1)).foldl proc_tr out1
    | none => trs.foldl proc_tr out

/-- All rows produced from the tables of a page. -/
def build_rows (tables : List (List Tr)) : List Row :=
  tables.foldl proc_table []

/-- Model of `RetrievalEngine._parse_tables_in_page`: the collected rows, or
the single-empty-row sentinel when nothing survived (source line 157). -/
def parse_tables_in_page (tables : List (List Tr)) : List Row :=
  let out := build_rows tables
  if out.isEmpty then [⟨false, []⟩] else out

/-! ### The multi-IP retrieve aggregation (`BlackholeGUI.do_retrieve`, lines 1041 to 1096)

State of the harvesting loop: the `header_added` flag, the `seen_ids` set
(modelled as a list queried by membership) and the `aggregated` output list. -/

/-- Aggregation state of the retrieve harvesting loop. -/
structure AggState where
  header_added : Bool
  seen_ids : List String
  aggregated : List Row
deriving DecidableEq

/-- Canonical row identifier: the first cell, stripped (source line 1088). -/
def row_id (row : Row) : String :=
  py_strip (row.cells.headD "")

/-- Processes one row of a unit result (source lines 1084 to 1091): rows with
no cells are skipped; a row is added only when its identifier is non-empty and
unseen, and the identifier is recorded. -/
def agg_row (s : AggState) (row : Row) : AggState :=
  if row.cells.isEmpty then s
  else if row_id row ≠ "" ∧ row_id row ∉ s.seen_ids then
    { s with seen_ids := row_id row :: s.seen_ids, aggregated := s.aggregated ++ [row] }
  else s

/-- Processes one unit result (source lines 1074 to 1096): an empty result
contributes nothing; a leading header row is added once (first one wins) and
skipped otherwise; the remaining rows go through `agg_row`. -/
def agg_unit : AggState → List Row → AggState
  | s, [] => s
  | s, r0 :: rest =>
    if r0.header then
      rest.foldl agg_row
        (if s.header_added then s
         else { s with header_added := true, aggregated := s.aggregated ++ [r0] })
    else (r0 :: rest).foldl agg_row s

/-- The aggregated output over the unit results in completion order, starting
from the empty state. -/
def aggregate_results (unit_results : List (List Row)) : List Row :=
  (unit_results.foldl agg_unit ⟨false, [], []⟩).aggregated

/-! ### The Create executor retry loop (`BlackholeCreator.submit_blackholes_http`) -/

/-- Outcome of one HTTP POST attempt: a raised transport or parse exception
(with its text), or a response with status and body text. -/
inductive AttemptOut where
  | exn (msg : String)
  | resp (status : Nat) (text : String)
deriving DecidableEq

/-- Per-IP result record of the Create executor (the fields the retry loop
touches: `success`, `status`, `message`). -/
structure CreateResult where
  success : Bool
  status : Nat
  message : String
deriving DecidableEq

/-- Retry bound of the Create executor (`BlackholeCreator.MAX_RETRIES`). -/
def MAX_RETRIES : Nat := 3

/-- Fixed delay in seconds between attempts (`BlackholeCreator.RETRY_DELAY`);
the embedding keeps the constant but does not model real time. -/
def RETRY_DELAY : Nat := 2

/-- Success-message heuristic (source lines 112 to 118): both branches mark
the unit successful; only the message differs. -/
def success_message (text : String) : String :=
  if py_contains (py_lower text) "successfully created"
     || py_contains (py_lower text) "blackhole created"
     || py_contains (py_lower text) "success" then
    "Blackhole created successfully (POST)"
  else "POST submitted (no error detected)"

/-- Message of the `CreateBlackholeError` raised on HTTP 401 (source line 108). -/
def err_401_create : String := "HTTP 401 (POST new.cgi): credentials missing/invalid"

/-- Message of the `CreateBlackholeError` raised on other HTTP errors (source line 110). -/
def err_http_create (status : Nat) : String :=
  "HTTP POST returned status " ++ toString status

/-- Exception text coming out of a failing attempt (the raised error for 401
and for generic HTTP errors, or the transport exception text). -/
def exc_text : AttemptOut → String
  | .exn e => e
  | .resp status _ => if status = 401 then err_401_create else err_http_create status

/-- Whether an attempt fails, that is, ends in the `except` handler of the
retry loop: any raised exception, and any response with status 401 or at
least 400 (both raised inside the `try`, source lines 107 to 110). -/
def attempt_fails (o : AttemptOut) : Bool :=
  match o with
  | .exn _ => true
  | .resp status _ => decide (status = 401) || decide (400 ≤ status)

/-- Status-field update performed by an attempt before any check: a response
stores its status (source line 105); a raised transport exception leaves the
previous value. -/
def fail_status_upd (res : CreateResult) : AttemptOut → CreateResult
  | .exn _ => res
  | .resp status _ => { res with status := status }

/-- The retry loop of `submit_blackholes_http` (source lines 92 to 130) for
one IP.  `remaining` counts the loop iterations left (`MAX_RETRIES - attempt`),
`attempt` the attempts made so far.  Returns the final result record together
with the number of POST calls that were made. -/
def run_retry_go (outcome : Nat → AttemptOut) :
    Nat → Nat → CreateResult → CreateResult × Nat
  | 0, attempt, res => (res, attempt)
  | remaining + 1, attempt, res =>
    let a := attempt + 1
    match outcome a with
    | .exn e =>
      if remaining = 0 then
        ({ res with success := false,
                    message := "Failed after " ++ toString MAX_RETRIES ++ " attempts: " ++ e }, a)
      else run_retry_go outcome remaining a { res with message := "POST error: " ++ e }
    | .resp status text =>
      let res1 : CreateResult := { res with status := status }
      if status = 401 then
        if remaining = 0 then
          ({ res1 with success := false,
                       message := "Failed after " ++ toString MAX_RETRIES ++ " attempts: "
                                  ++ err_401_create }, a)
        else run_retry_go outcome remaining a { res1 with message := "POST error: " ++ err_401_create }
      else if 400 ≤ status then
        if remaining = 0 then
          ({ res1 with success := false,
                       message := "Failed after " ++ toString MAX_RETRIES ++ " attempts: "
                                  ++ err_http_create status }, a)
        else run_retry_go outcome remaining a { res1 with message := "POST error: " ++ err_http_create status }
      else
        ({ res1 with success := true, message := success_message text }, a)

/-- One full retry loop for one IP: up to `MAX_RETRIES` attempts starting from
the initial record `success=False, status=0, message=""` (source lines 80 to 90). -/
def run_retry (outcome : Nat → AttemptOut) : CreateResult × Nat :=
  run_retry_go outcome MAX_RETRIES 0 ⟨false, 0, ""⟩

/-! ### The CREATE batch path (`BlackholeGUI.run_create`, lines 1231 to 1339)

Abort timing is modelled with a global clock: `flag_at t` is the value of the
shared cancellation flag at time `t`; each unit checks the flag once when its
worker starts (`start_time`), and the harvesting loop checks it once at the
top of each iteration (`harvest_time`). -/

/-- Value of the `status` key of a GUI result record: an HTTP status code, or
one of the string markers `"aborted"`, `"error"`, `"no_result"`. -/
inductive StatusVal where
  | num (n : Nat)
  | str (s : String)
deriving DecidableEq

/-- GUI-level per-unit result record of the CREATE batch path. -/
structure UIResult where
  ip : String
  success : Bool
  status : StatusVal
  message : String
  idx : Nat
deriving DecidableEq

/-- Environment of one CREATE batch run: the IPs, the cancellation flag over
time, the check times, the per-unit per-attempt HTTP outcomes, and the
completion order of the futures (unit indices are 1-based as in the source). -/
structure CreateEnv where
  ips : List String
  flag_at : Nat → Bool
  start_time : Nat → Nat
  harvest_time : Nat → Nat
  outcome : Nat → Nat → AttemptOut
  order : List Nat

/-- Model of the `create_single_ip` worker (source lines 1267 to 1287): if the
abort flag is observed at worker start the unit returns an abort-tagged record
without any HTTP call; otherwise it runs the Create executor retry loop.  The
second component counts the HTTP POST calls made by the unit. -/
def create_single_ip (env : CreateEnv) (idx : Nat) : UIResult × Nat :=
  let ip := env.ips.getD (idx - 1) ""
  if env.flag_at (env.start_time idx) then
    (⟨ip, false, .str "aborted", "", idx⟩, 0)
  else
    let r := run_retry (env.outcome idx)
    (⟨ip, r.1.success, .num r.1.status, r.1.message, idx⟩, r.2)

/-- The result record a unit contributes when harvested. -/
def unit_result (env : CreateEnv) (idx : Nat) : UIResult :=
  (create_single_ip env idx).1

/-- The harvesting loop of `run_create` (source lines 1300 to 1336): the
`k`-th iteration first checks the abort flag and breaks when it is set,
discarding everything not yet harvested; otherwise it appends the completed
result of the next unit. -/
def harvest_create (env : CreateEnv) : List Nat → Nat → List UIResult
  | [], _ => []
  | i :: rest, k =>
    if env.flag_at (env.harvest_time k) then []
    else unit_result env i :: harvest_create env rest (k + 1)

/-- The `results` list produced by one CREATE batch run. -/
def run_create (env : CreateEnv) : List UIResult :=
  harvest_create env env.order 0

/-- Number of harvest iterations that run before the loop observes the abort
flag (all of them when it never does). -/
def harvest_len (env : CreateEnv) : List Nat → Nat → Nat
  | [], _ => 0
  | _ :: rest, k =>
    if env.flag_at (env.harvest_time k) then 0 else harvest_len env rest (k + 1) + 1

/-! ### The batch update orchestrator (`BatchRemoval.batch_post_views`) -/

/-- A form payload (`Dict[str, str]`). -/
abbrev FormDict := List (String × String)

/-- Result record of one `view.cgi` POST operation. -/
structure OpResult where
  id : String
  success : Bool
  status : Nat
  text : String
deriving DecidableEq

/-- Model of the `_do_op` worker (source lines 190 to 207): an abort observed
before start yields the abort record; an exception yields a failure record
with the exception text; otherwise success is `200 <= status < 400`. -/
def do_op (abort_observed : Bool) (outcome : AttemptOut) (bh_id : String) : OpResult :=
  if abort_observed then ⟨bh_id, false, 0, "aborted"⟩
  else
    match outcome with
    | .resp status text => ⟨bh_id, decide (200 ≤ status ∧ status < 400), status, text⟩
    | .exn e => ⟨bh_id, false, 0, e⟩

/-- Environment of one `batch_post_views` run: an optional client-setup
failure (its exception text), the per-unit abort observation at worker start,
the per-unit HTTP outcomes, and the completion order of the futures
(0-based indices into the operations list). -/
structure BatchEnv where
  setup_error : Option String
  abort_observed : Nat → Bool
  outcome : Nat → AttemptOut
  order : List Nat

/-- Model of `BatchRemoval.batch_post_views` (source lines 139 to 235): empty
input returns the empty list; a setup failure converts every operation into a
failure record with the same text; otherwise the workers run and their results
are appended in completion order.  Every unit-level error is captured into a
record, so the function is total (the orchestrator never raises). -/
def batch_post_views (ops : List (String × FormDict)) (env : BatchEnv) : List OpResult :=
  if ops.isEmpty then []
  else
    match env.setup_error with
    | some e => ops.map fun op => ⟨op.1, false, 0, e⟩
    | none =>
      env.order.map fun i =>
        do_op (env.abort_observed i) (env.outcome i) (ops.getD i ("", [])).1

/-! ### The Retrieve executor status checks (`RetrievalEngine._http_fetch_and_parse`) -/

/-- Message of the `RetrievalError` raised on HTTP 401 (source line 200). -/
def err_401_retrieve : String := "HTTP 401 (Playwright request): credentials missing/invalid"

/-- Message of the `RetrievalError` raised on other HTTP errors (source line 202). -/
def err_http_retrieve (status : Nat) : String :=
  "HTTP search returned status " ++ toString status ++ " (Playwright request)"

/-- The status checks of `_http_fetch_and_parse` (source lines 197 to 202):
401 first, then any status of at least 400. -/
def http_fetch_status_check (status : Nat) : Option String :=
  if status = 401 then some err_401_retrieve
  else if 400 ≤ status then some (err_http_retrieve status)
  else none

/-- Model of `_http_fetch_and_parse` for one response: the Retrieve executor
performs a single request (no retry loop exists on this path); an HTTP error
is re-raised as `RetrievalError("Retrieval failed: ...")` by the outer handler
(source line 224); otherwise the body is parsed. -/
def http_fetch_and_parse (status : Nat) (tables : List (List Tr)) : Except String (List Row) :=
  match http_fetch_status_check status with
  | some e => .error ("Retrieval failed: " ++ e)
  | none => .ok (parse_tables_in_page tables)

/-! ### The pooled connection client (`PlaywrightClient`, PlayWrightUtil.py lines 100 to 174)

Sessions are identified by creation order (`sid`).  The state keeps, for every
session ever created, its closed flag and the thread that created it, plus the
`_sessions` tracking list and the per-thread `_thread_local` slot.  Operations
are atomic in the model; an execution is any interleaving of them. -/

/-- State of one `PlaywrightClient` instance. -/
structure ClientState where
  next_sid : Nat
  closed : Nat → Bool
  owner : Nat → Nat
  tracked : List Nat
  tls : Nat → Option Nat

/-- Freshly constructed client: no sessions, empty tracking list, empty
thread-local map. -/
def init_client : ClientState :=
  ⟨0, fun _ => false, fun _ => 0, [], fun _ => none⟩

/-- Model of `_create_session` called from thread `t`: a new session is
created, appended to `_sessions`, and stored in the thread-local slot of `t`. -/
def create_session (t : Nat) (s : ClientState) : Nat × ClientState :=
  let sid := s.next_sid
  (sid,
   { next_sid := sid + 1
   , closed := s.closed
   , owner := fun x => if x = sid then t else s.owner x
   , tracked := s.tracked ++ [sid]
   , tls := fun x => if x = t then some sid else s.tls x })

/-- Model of `_get_session` called from thread `t` (source lines 138 to 142):
the thread-local session is returned when present and not closed; otherwise a
new session is created. -/
def get_session (t : Nat) (s : ClientState) : Nat × ClientState :=
  match s.tls t with
  | some sid => if s.closed sid then create_session t s else (sid, s)
  | none => create_session t s

/-- Model of `dispose` called from thread `t` (source lines 158 to 174): every
tracked session is closed, the tracking list is cleared, and the thread-local
slot of the calling thread is deleted. -/
def dispose_client (t : Nat) (s : ClientState) : ClientState :=
  { next_sid := s.next_sid
  , closed := fun x => if x ∈ s.tracked then true else s.closed x
  , owner := s.owner
  , tracked := []
  , tls := fun x => if x = t then none else s.tls x }

/-- Client states reachable from a fresh client by any interleaving of
`_get_session` and `dispose` calls from arbitrary threads. -/
inductive ClientReach : ClientState → Prop where
  | init : ClientReach init_client
  | step_get (t : Nat) {s : ClientState} : ClientReach s → ClientReach (get_session t s).2
  | step_dispose (t : Nat) {s : ClientState} : ClientReach s → ClientReach (dispose_client t s)

/-- Invariant of the session pool: thread-local slots point at sessions owned
by their thread; every live session is tracked and sits in the slot of its
owner; unallocated identifiers are not closed; tracked identifiers are
allocated. -/
def client_inv (s : ClientState) : Prop :=
  (∀ t sid, s.tls t = some sid → s.owner sid = t ∧ sid < s.next_sid) ∧
  (∀ sid, sid < s.next_sid → s.closed sid = false → sid ∈ s.tracked) ∧
  (∀ sid, sid < s.next_sid → s.closed sid = false → s.tls (s.owner sid) = some sid) ∧
  (∀ sid, s.next_sid ≤ sid → s.closed sid = false) ∧
  (∀ sid ∈ s.tracked, sid < s.next_sid)

/-! ### Concrete inputs used by witnesses and counterexamples -/

/-- Concrete batch environment used by the C1 witness. -/
def c1_ops : List (String × FormDict) := [("7", []), ("9", [])]

/-- Concrete batch environment used by the C1 witness (no abort, no setup
failure, completion order reversed). -/
def c1_env : BatchEnv := ⟨none, fun _ => false, fun _ => .resp 204 "done", [1, 0]⟩

/-- Concrete operations list used by the C3 witness. -/
def c3_ops : List (String × FormDict) := [("11", []), ("12", [])]

/-- Concrete batch environment used by the C3 witness: the abort flag is
observed by every unit. -/
def c3_env : BatchEnv := ⟨none, fun _ => true, fun _ => .resp 204 "done", [1, 0]⟩

/-- Environment of the C3 counterexample: a one-unit GUI CREATE run whose
cancellation flag is already set before the unit starts (the flag is
constantly true, so it is set after dispatch and before any unit starts,
and it is trivially monotone). -/
def c3_cex_env : CreateEnv :=
  ⟨["10.0.0.1/32"], fun _ => true, fun _ => 0, fun _ => 1,
   fun _ _ => .exn "x", [1]⟩

/-- C2 counterexample.  Environment refuting the claim as stated: one unit,
which starts at time 0 (flag unset), performs its HTTP call (one POST
attempt) and completes successfully; the flag is set at time 1; the single
harvest iteration runs at time 2, observes the flag and breaks, so the
returned result collection is empty even though the unit started before the
flag was set and ran to completion. -/
def c2_cex_env : CreateEnv :=
  ⟨["10.0.0.1/32"], fun t => decide (1 ≤ t), fun _ => 0, fun _ => 2,
   fun _ _ => .resp 200 "ok", [1]⟩

/-- Environment for the C2 amended witness: one unit aborted at worker start
(its start check runs at time 5, after the flag is set at time 1), while the
harvest iteration at time 0 still runs. -/
def c2_wit_env : CreateEnv :=
  ⟨["10.0.0.9/32"], fun t => decide (1 ≤ t), fun _ => 5, fun _ => 0,
   fun _ _ => .exn "boom", [1]⟩

/-- Unit results used by the C5 amended witness. -/
def c5_units : List (List Row) :=
  [[⟨true, ["ID", "IP"]⟩, ⟨false, ["101", "IP1"]⟩],
   [⟨true, ["ID", "IP"]⟩, ⟨false, ["101", "IP1"]⟩, ⟨false, ["102", "IP2"]⟩]]

/-- Attempt outcomes of the spec scenario used by the C6 witness: transport
exceptions on attempts 1 and 2, success on attempt 3. -/
def c6_outcome : Nat → AttemptOut :=
  fun a => if a ≤ 2 then .exn "Connection timeout" else .resp 200 "Successfully created"

/-- Attempt outcomes used by the C7 counterexample: HTTP 401 on attempt 1,
success on attempt 2. -/
def c7_outcome : Nat → AttemptOut :=
  fun a => if a = 1 then .resp 401 "" else .resp 200 "success"

/-- Concrete page used by the C8 witness: one table with a data row whose
cell text survives extraction. -/
def c8_tables : List (List Tr) := [[⟨[], [⟨"5", "5"⟩, ⟨"", "<i></i>"⟩]⟩]]

/-- State reached by `_get_session` calls from threads 0 and 1, used by the
C9 witness. -/
def c9_state : ClientState := (get_session 1 (get_session 0 init_client).2).2

/-! ## Theorems -/

/-! ### Batch update orchestrator: completeness and abort tagging -/

/-- Every branch of `do_op` carries the id of the operation it belongs to. -/
theorem do_op_id (a : Bool) (o : AttemptOut) (b : String) : (do_op a o b).id = b := by
  cases a <;> cases o <;> simp [do_op]

/-- Reading the operations list by index over `range` recovers the ids in
submission order. -/
theorem range_map_getD_fst (ops : List (String × FormDict)) :
    (List.range ops.length).map (fun i => (ops.getD i ("", [])).1) = ops.map Prod.fst := by
  induction ops with
  | nil => rfl
  | cons a t ih =>
    rw [List.length_cons, List.range_succ_eq_map, List.map_cons, List.map_map, List.map_cons]
    refine congrArg₂ _ rfl ?_
    rw [← ih]
    refine List.map_congr_left fun i _ => ?_
    simp [Function.comp, List.getD_cons_succ]

/-- C1.  Batch completeness (P1): a non-empty batch with no setup failure and
the cancellation flag never observed returns (the embedded orchestrator is a
total function: every unit-level error is captured into a result record) a
list of exactly N result records whose ids are a permutation of the ids of
the submitted operations, so each entry is traceable to exactly one
submitted operation. -/
theorem batch_completeness (ops : List (String × FormDict)) (env : BatchEnv)
    (hne : ops ≠ []) (hsetup : env.setup_error = none)
    (_hab : ∀ i, env.abort_observed i = false)
    (horder : env.order.Perm (List.range ops.length)) :
    (batch_post_views ops env).length = ops.length ∧
    ((batch_post_views ops env).map OpResult.id).Perm (ops.map Prod.fst) := by
  have hne' : ops.isEmpty = false := by
    cases ops with
    | nil => exact absurd rfl hne
    | cons a t => rfl
  unfold batch_post_views
  rw [hsetup, hne']
  simp only [Bool.false_eq_true, if_false]
  constructor
  · rw [List.length_map, horder.length_eq, List.length_range]
  · rw [List.map_map]
    have hfun : (OpResult.id ∘ fun i =>
        do_op (env.abort_observed i) (env.outcome i) (ops.getD i ("", [])).1) =
        fun i => (ops.getD i ("", [])).1 :=
      funext fun i => do_op_id _ _ _
    rw [hfun]
    exact (horder.map _).trans (by rw [range_map_getD_fst])

/-- Witness for C1 at a concrete two-operation batch. -/
theorem batch_completeness_witness :
    (batch_post_views c1_ops c1_env).length = c1_ops.length ∧
    ((batch_post_views c1_ops c1_env).map OpResult.id).Perm (c1_ops.map Prod.fst) :=
  batch_completeness c1_ops c1_env (by decide) rfl (fun _ => rfl) (by decide)

/-- A unit whose worker observes the abort flag at start produces the
abort-tagged GUI record (`success=False, status="aborted"`), source lines
1269 to 1271 of BlackholeGUI.py. -/
theorem unit_result_abort (cenv : CreateEnv) (idx : Nat)
    (h : cenv.flag_at (cenv.start_time idx) = true) :
    (unit_result cenv idx).success = false ∧ (unit_result cenv idx).status = .str "aborted" := by
  simp [unit_result, create_single_ip, h]

/-- With a monotone cancellation flag, and every unit starting no later than
the harvest check of its position (a future is only yielded after its worker
ran, so this holds of every real schedule), no abort-tagged record is ever
harvested: a unit observes the flag at its start only when the flag is also
set at the later harvest check, which breaks the loop before the append. -/
theorem harvest_no_aborted (cenv : CreateEnv)
    (hmono : ∀ t1 t2, t1 ≤ t2 → cenv.flag_at t1 = true → cenv.flag_at t2 = true) :
    ∀ (l : List Nat) (k0 : Nat),
      (∀ k, k < l.length → cenv.start_time (l.getD k 0) ≤ cenv.harvest_time (k0 + k)) →
      ∀ r ∈ harvest_create cenv l k0, r.status ≠ .str "aborted" := by
  intro l
  induction l with
  | nil =>
    intro k0 _ r hr
    exact absurd hr (List.not_mem_nil r)
  | cons i rest ih =>
    intro k0 hord r hr
    by_cases hf : cenv.flag_at (cenv.harvest_time k0) = true
    · rw [show harvest_create cenv (i :: rest) k0 = [] from by
        simp [harvest_create, hf]] at hr
      exact absurd hr (List.not_mem_nil r)
    · have hf2 : cenv.flag_at (cenv.harvest_time k0) = false := by
        cases hcc : cenv.flag_at (cenv.harvest_time k0) with
        | true => exact absurd hcc hf
        | false => rfl
      rw [show harvest_create cenv (i :: rest) k0 =
          unit_result cenv i :: harvest_create cenv rest (k0 + 1) from by
        simp [harvest_create, hf2]] at hr
      rcases List.mem_cons.mp hr with rfl | hr
      · have hstart : cenv.start_time i ≤ cenv.harvest_time k0 := by
          have hh := hord 0 (by simp)
          simpa using hh
        have hfa : cenv.flag_at (cenv.start_time i) = false := by
          cases hcc : cenv.flag_at (cenv.start_time i) with
          | true => exact absurd (hmono _ _ hstart hcc) (by simp [hf2])
          | false => rfl
        simp [unit_result, create_single_ip, hfa]
      · refine ih (k0 + 1) ?_ r hr
        intro k hk
        have hh := hord (k + 1) (by simpa using Nat.succ_lt_succ hk)
        simpa [Nat.add_assoc, Nat.add_comm 1 k] using hh

/-- With the cancellation flag set before everything, the first harvest check
breaks immediately and `run_create` returns the empty collection. -/
theorem run_create_flag_all (cenv : CreateEnv) (h : ∀ t, cenv.flag_at t = true) :
    run_create cenv = [] := by
  unfold run_create
  cases cenv.order with
  | nil => rfl
  | cons i rest => simp [harvest_create, h (cenv.harvest_time 0)]

/-- C3 counterexample.  In `c3_cex_env` the flag is set before the only unit
starts (first conjunct), the worker produces its abort-tagged record (second
conjunct), yet `run_create` returns the empty collection (third conjunct):
the unit contributes zero results to the returned collection, not one, and
the "all N returned entries tagged" scenario returns 0 entries instead of N,
because the harvest-loop abort check at BlackholeGUI.py line 1303 precedes
every append and the flag is monotone within a run. -/
theorem abort_tagging_cex :
    c3_cex_env.flag_at (c3_cex_env.start_time 1) = true ∧
    (create_single_ip c3_cex_env 1).1.success = false ∧
    (create_single_ip c3_cex_env 1).1.status = .str "aborted" ∧
    run_create c3_cex_env = [] :=
  ⟨rfl, rfl, rfl, rfl⟩

/-- C3 amended.  Abort tagging: a unit observing the cancellation flag before
starting produces exactly one abort-tagged record (`success=false` with the
"aborted" marker: the `text` field in `batch_post_views`, the `status` field
in the GUI CREATE worker).  In `batch_post_views`, whose harvesting loop has
no abort check, that record reaches the returned collection: with no setup
failure, (a) every submitted operation yields exactly one result record; (b)
a unit observing the flag contributes exactly the record
(id, success=False, status=0, text="aborted") at its harvest position; (c) if
the flag is observed by every unit, all N returned entries are so tagged.
(d) the GUI CREATE worker tags its record the same way, but (e) the GUI
harvesting loop never returns an abort-tagged record (given a monotone flag
and units starting no later than their harvest checks), and (f) in the
flag-set-before-any-unit-starts scenario the GUI collection is empty, not N
tagged entries. -/
theorem abort_tagging (ops : List (String × FormDict)) (env : BatchEnv)
    (hsetup : env.setup_error = none)
    (horder : env.order.Perm (List.range ops.length)) :
    (batch_post_views ops env).length = ops.length ∧
    (∀ k, k < env.order.length →
       env.abort_observed (env.order.getD k 0) = true →
       (batch_post_views ops env).getD k ⟨"", false, 0, ""⟩ =
         ⟨(ops.getD (env.order.getD k 0) ("", [])).1, false, 0, "aborted"⟩) ∧
    ((∀ i, env.abort_observed i = true) →
       ∀ r ∈ batch_post_views ops env, r.success = false ∧ r.text = "aborted") ∧
    (∀ cenv : CreateEnv, ∀ idx, cenv.flag_at (cenv.start_time idx) = true →
       (unit_result cenv idx).success = false ∧
       (unit_result cenv idx).status = .str "aborted") ∧
    (∀ cenv : CreateEnv,
       (∀ t1 t2, t1 ≤ t2 → cenv.flag_at t1 = true → cenv.flag_at t2 = true) →
       (∀ k, k < cenv.order.length →
          cenv.start_time (cenv.order.getD k 0) ≤ cenv.harvest_time k) →
       ∀ r ∈ run_create cenv, r.status ≠ .str "aborted") ∧
    (∀ cenv : CreateEnv, (∀ t, cenv.flag_at t = true) → run_create cenv = []) := by
  have hE : ∀ cenv : CreateEnv,
      (∀ t1 t2, t1 ≤ t2 → cenv.flag_at t1 = true → cenv.flag_at t2 = true) →
      (∀ k, k < cenv.order.length →
         cenv.start_time (cenv.order.getD k 0) ≤ cenv.harvest_time k) →
      ∀ r ∈ run_create cenv, r.status ≠ .str "aborted" := by
    intro cenv hmono hord
    exact harvest_no_aborted cenv hmono cenv.order 0 fun k hk => by simpa using hord k hk
  by_cases hops : ops.isEmpty
  · have hops2 : ops = [] := by
      cases ops with
      | nil => rfl
      | cons a t => exact absurd hops (by simp)
    subst hops2
    have hord : env.order = [] := by
      have := horder.length_eq
      simpa using List.length_eq_zero.mp (by simpa using this)
    refine ⟨by simp [batch_post_views], ?_, ?_,
      fun cenv idx h => unit_result_abort cenv idx h, hE, run_create_flag_all⟩
    · intro k hk
      rw [hord] at hk
      exact absurd hk (by simp)
    · intro _ r hr
      simp [batch_post_views] at hr
  · have hne2 : ops.isEmpty = false := by simpa using hops
    unfold batch_post_views
    rw [hsetup, hne2]
    simp only [Bool.false_eq_true, if_false]
    refine ⟨?_, ?_, ?_,
      fun cenv idx h => unit_result_abort cenv idx h, hE, run_create_flag_all⟩
    · rw [List.length_map, horder.length_eq, List.length_range]
    · intro k hk habort
      have hk2 : k < (env.order.map fun i =>
          do_op (env.abort_observed i) (env.outcome i) (ops.getD i ("", [])).1).length := by
        simpa using hk
      have h1 : (env.order.map fun i =>
          do_op (env.abort_observed i) (env.outcome i) (ops.getD i ("", [])).1).getD k
            ⟨"", false, 0, ""⟩ =
          do_op (env.abort_observed (env.order.getD k 0)) (env.outcome (env.order.getD k 0))
            (ops.getD (env.order.getD k 0) ("", [])).1 := by
        rw [List.getD_eq_getElem _ _ hk2, List.getElem_map, List.getD_eq_getElem _ _ hk]
      rw [h1]
      unfold do_op
      rw [if_pos habort]
    · intro hall r hr
      obtain ⟨i, _, rfl⟩ := List.mem_map.mp hr
      simp [do_op, hall i]

/-- Witness for the C3 amended theorem: the batch conjuncts at a concrete
aborted batch, the tagged GUI unit record, and the empty GUI collection of
`c3_cex_env` (whose constant flag is monotone and whose unit starts before
its harvest check). -/
theorem abort_tagging_witness :
    (batch_post_views c3_ops c3_env).length = c3_ops.length ∧
    ((∀ i, c3_env.abort_observed i = true) →
       ∀ r ∈ batch_post_views c3_ops c3_env, r.success = false ∧ r.text = "aborted") ∧
    (unit_result c3_cex_env 1).success = false ∧
    (unit_result c3_cex_env 1).status = .str "aborted" ∧
    (∀ r ∈ run_create c3_cex_env, r.status ≠ .str "aborted") ∧
    run_create c3_cex_env = [] := by
  have h := abort_tagging c3_ops c3_env rfl (by decide)
  exact ⟨h.1, h.2.2.1, (h.2.2.2.1 c3_cex_env 1 rfl).1, (h.2.2.2.1 c3_cex_env 1 rfl).2,
    h.2.2.2.2.1 c3_cex_env (fun t1 t2 _ _ => rfl) (fun k _ => Nat.zero_le _),
    h.2.2.2.2.2 c3_cex_env (fun t => rfl)⟩

/-! ### CREATE batch path: abort semantics of the harvesting loop -/

/-- The harvesting loop keeps exactly the prefix of the completion order that
is harvested before the loop observes the abort flag. -/
theorem harvest_create_take (env : CreateEnv) :
    ∀ (l : List Nat) (k : Nat),
      harvest_create env l k = (l.take (harvest_len env l k)).map (unit_result env) := by
  intro l
  induction l with
  | nil => intro k; rfl
  | cons i rest ih =>
    intro k
    by_cases hf : env.flag_at (env.harvest_time k) = true
    · simp [harvest_create, harvest_len, hf]
    · have hf' : env.flag_at (env.harvest_time k) = false := by
        cases h : env.flag_at (env.harvest_time k) with
        | true => exact absurd h hf
        | false => rfl
      simp [harvest_create, harvest_len, hf', ih (k + 1)]

/-- Every harvest iteration that runs observed the abort flag as unset. -/
theorem harvest_len_no_flag (env : CreateEnv) :
    ∀ (l : List Nat) (k j : Nat), j < harvest_len env l k →
      env.flag_at (env.harvest_time (k + j)) = false := by
  intro l
  induction l with
  | nil => intro k j hj; exact absurd hj (by simp [harvest_len])
  | cons i rest ih =>
    intro k j hj
    by_cases hf : env.flag_at (env.harvest_time k) = true
    · rw [harvest_len, if_pos hf] at hj
      exact absurd hj (by omega)
    · have hf' : env.flag_at (env.harvest_time k) = false := by
        cases h : env.flag_at (env.harvest_time k) with
        | true => exact absurd h hf
        | false => rfl
      cases j with
      | zero => simpa using hf'
      | succ j' =>
        rw [harvest_len, if_neg (by simp [hf'])] at hj
        have := ih (k + 1) j' (by omega)
        simpa [Nat.add_assoc, Nat.add_comm 1 j'] using this

/-- C2 is false as stated: in `c2_cex_env` the unit started while the flag
was unset (first conjunct), ran to completion with a successful result and
one HTTP attempt (second and third conjuncts), yet the returned collection
of `run_create` is empty (fourth conjunct), so the result of the completed unit
does not appear in the returned result collection. -/
theorem abort_monotonicity_cex :
    c2_cex_env.flag_at (c2_cex_env.start_time 1) = false ∧
    (create_single_ip c2_cex_env 1).1.success = true ∧
    (create_single_ip c2_cex_env 1).2 = 1 ∧
    run_create c2_cex_env = [] := by
  refine ⟨rfl, rfl, rfl, rfl⟩

/-- C2 amended.  Once the cancellation flag is set, no unit that has not yet
started begins its HTTP call: a unit observing the flag at worker start
returns the abort-tagged record with zero POST attempts (first conjunct).
Units that already started run to completion, but the returned collection
contains exactly the results harvested before the harvesting loop first
observes the flag (second conjunct); every kept harvest iteration observed
the flag as unset (third conjunct).  Completed-but-unharvested results are
discarded, not returned. -/
theorem abort_monotonicity_amended (env : CreateEnv) :
    (∀ idx, env.flag_at (env.start_time idx) = true →
       create_single_ip env idx =
         (⟨env.ips.getD (idx - 1) "", false, .str "aborted", "", idx⟩, 0)) ∧
    run_create env = (env.order.take (harvest_len env env.order 0)).map (unit_result env) ∧
    (∀ j, j < harvest_len env env.order 0 → env.flag_at (env.harvest_time j) = false) := by
  refine ⟨?_, harvest_create_take env env.order 0, ?_⟩
  · intro idx h
    simp [create_single_ip, h]
  · intro j hj
    simpa using harvest_len_no_flag env env.order 0 j hj

/-- Witness for the C2 amended theorem at `c2_wit_env`. -/
theorem abort_monotonicity_amended_witness :
    c2_wit_env.flag_at (c2_wit_env.start_time 1) = true ∧
    create_single_ip c2_wit_env 1 =
      (⟨"10.0.0.9/32", false, .str "aborted", "", 1⟩, 0) ∧
    run_create c2_wit_env =
      (c2_wit_env.order.take (harvest_len c2_wit_env c2_wit_env.order 0)).map
        (unit_result c2_wit_env) ∧
    c2_wit_env.flag_at (c2_wit_env.harvest_time 0) = false :=
  ⟨rfl, (abort_monotonicity_amended c2_wit_env).1 1 rfl,
   (abort_monotonicity_amended c2_wit_env).2.1,
   (abort_monotonicity_amended c2_wit_env).2.2 0 (by decide)⟩


/-! ### Retrieve aggregation: deduplication, header handling, dropped rows -/

/-- A row with no cells has the empty canonical identifier. -/
theorem row_id_of_no_cells (r : Row) (h : r.cells = []) : row_id r = "" := by
  simp [row_id, h, py_strip]

/-- A row with empty `cells` list leaves the state unchanged. -/
theorem agg_row_of_empty (s : AggState) (r : Row) (h : r.cells.isEmpty = true) :
    agg_row s r = s := by
  unfold agg_row
  rw [if_pos h]

/-- A row with cells and a fresh non-empty identifier is appended and its
identifier recorded. -/
theorem agg_row_of_cond (s : AggState) (r : Row) (hc : r.cells.isEmpty = false)
    (h : row_id r ≠ "" ∧ row_id r ∉ s.seen_ids) :
    agg_row s r =
      { s with seen_ids := row_id r :: s.seen_ids, aggregated := s.aggregated ++ [r] } := by
  unfold agg_row
  rw [if_neg (by simp [hc]), if_pos h]

/-- A row with cells but an empty or seen identifier leaves the state
unchanged. -/
theorem agg_row_of_not_cond (s : AggState) (r : Row) (hc : r.cells.isEmpty = false)
    (h : ¬(row_id r ≠ "" ∧ row_id r ∉ s.seen_ids)) :
    agg_row s r = s := by
  unfold agg_row
  rw [if_neg (by simp [hc]), if_neg h]

/-- Processing a row either leaves the state unchanged, or appends the row
and records its identifier (which was non-empty, unseen, from a row with
cells). -/
theorem agg_row_cases (s : AggState) (r : Row) :
    agg_row s r = s ∨
    (r.cells ≠ [] ∧ row_id r ≠ "" ∧ row_id r ∉ s.seen_ids ∧
     agg_row s r =
       { s with seen_ids := row_id r :: s.seen_ids, aggregated := s.aggregated ++ [r] }) := by
  by_cases hc : r.cells.isEmpty
  · exact Or.inl (agg_row_of_empty s r hc)
  · have hc' : r.cells.isEmpty = false := by simpa using hc
    by_cases h : row_id r ≠ "" ∧ row_id r ∉ s.seen_ids
    · exact Or.inr ⟨by simpa using hc, h.1, h.2, agg_row_of_cond s r hc' h⟩
    · exact Or.inl (agg_row_of_not_cond s r hc' h)

/-- Processing a row never changes the `header_added` flag. -/
theorem agg_row_header_added (s : AggState) (r : Row) :
    (agg_row s r).header_added = s.header_added := by
  rcases agg_row_cases s r with heq | ⟨_, _, _, heq⟩ <;> rw [heq]

/-- Identifiers already seen stay seen after processing a row. -/
theorem agg_row_seen_mono (s : AggState) (r : Row) :
    ∀ x ∈ s.seen_ids, x ∈ (agg_row s r).seen_ids := by
  intro x hx
  rcases agg_row_cases s r with heq | ⟨_, _, _, heq⟩ <;> rw [heq]
  · exact hx
  · exact List.mem_cons_of_mem _ hx

/-- A row whose identifier is empty or already seen leaves the state
unchanged (later duplicates are silently dropped, source line 1089). -/
theorem agg_row_drop (s : AggState) (r : Row)
    (h : row_id r = "" ∨ row_id r ∈ s.seen_ids) : agg_row s r = s := by
  rcases agg_row_cases s r with heq | ⟨_, hne, hnotin, _⟩
  · exact heq
  · rcases h with h | h
    · exact absurd h hne
    · exact absurd h hnotin

/-- After processing a row, its identifier is empty or seen. -/
theorem agg_row_handled_self (s : AggState) (r : Row) :
    row_id r = "" ∨ row_id r ∈ (agg_row s r).seen_ids := by
  by_cases hc : r.cells.isEmpty
  · exact Or.inl (row_id_of_no_cells r (by simpa using hc))
  · have hc' : r.cells.isEmpty = false := by simpa using hc
    by_cases hid : row_id r = ""
    · exact Or.inl hid
    · by_cases hin : row_id r ∈ s.seen_ids
      · exact Or.inr (agg_row_seen_mono s r _ hin)
      · right
        rw [agg_row_of_cond s r hc' ⟨hid, hin⟩]
        exact List.mem_cons_self _ _

/-- Seen identifiers are preserved by a whole fold of rows. -/
theorem foldl_agg_row_seen_mono (rows : List Row) :
    ∀ (s : AggState) (x : String), x ∈ s.seen_ids → x ∈ (rows.foldl agg_row s).seen_ids := by
  induction rows with
  | nil => intro s x hx; exact hx
  | cons r rest ih =>
    intro s x hx
    exact ih (agg_row s r) x (agg_row_seen_mono s r x hx)

/-- After folding a list of rows, every row of the list has an empty or seen
identifier. -/
theorem foldl_agg_row_handled (rows : List Row) :
    ∀ (s : AggState) (r : Row), r ∈ rows →
      row_id r = "" ∨ row_id r ∈ (rows.foldl agg_row s).seen_ids := by
  induction rows with
  | nil => intro s r hr; exact absurd hr (List.not_mem_nil r)
  | cons r0 rest ih =>
    intro s r hr
    rcases List.mem_cons.mp hr with rfl | hr
    · rcases agg_row_handled_self s r with h | h
      · exact Or.inl h
      · exact Or.inr (foldl_agg_row_seen_mono rest (agg_row s r) _ h)
    · exact ih (agg_row s r0) r hr

/-- Folding rows whose identifiers are all empty or seen changes nothing. -/
theorem foldl_agg_row_drop (rows : List Row) :
    ∀ (s : AggState),
      (∀ r ∈ rows, row_id r = "" ∨ row_id r ∈ s.seen_ids) →
      rows.foldl agg_row s = s := by
  induction rows with
  | nil => intro s _; rfl
  | cons r0 rest ih =>
    intro s h
    have h0 := agg_row_drop s r0 (h r0 (List.mem_cons_self _ _))
    rw [List.foldl_cons, h0]
    exact ih s fun r hr => h r (List.mem_cons_of_mem _ hr)

/-- The `header_added` flag is preserved by a whole fold of rows. -/
theorem foldl_agg_row_header_added (rows : List Row) :
    ∀ (s : AggState), (rows.foldl agg_row s).header_added = s.header_added := by
  induction rows with
  | nil => intro s; rfl
  | cons r rest ih =>
    intro s
    rw [List.foldl_cons, ih, agg_row_header_added]

/-- Equation of `agg_unit` for a unit whose first row is a header row. -/
theorem agg_unit_cons_header (s : AggState) (r0 : Row) (rest : List Row)
    (h0 : r0.header = true) :
    agg_unit s (r0 :: rest) =
      rest.foldl agg_row
        (if s.header_added = true then s
         else { s with header_added := true, aggregated := s.aggregated ++ [r0] }) := by
  simp only [agg_unit]
  rw [if_pos h0]

/-- Equation of `agg_unit` for a unit whose first row is a data row. -/
theorem agg_unit_cons_data (s : AggState) (r0 : Row) (rest : List Row)
    (h0 : ¬r0.header = true) :
    agg_unit s (r0 :: rest) = (r0 :: rest).foldl agg_row s := by
  simp only [agg_unit]
  rw [if_neg h0]

/-- Processing the same unit result a second time changes nothing. -/
theorem agg_unit_idem (s : AggState) (res : List Row) :
    agg_unit (agg_unit s res) res = agg_unit s res := by
  cases res with
  | nil => rfl
  | cons r0 rest =>
    by_cases h0 : r0.header = true
    · have hs1 : ∀ s1 : AggState, s1.header_added = true →
          agg_unit (rest.foldl agg_row s1) (r0 :: rest) = rest.foldl agg_row s1 := by
        intro s1 h1
        have hha : (rest.foldl agg_row s1).header_added = true := by
          rw [foldl_agg_row_header_added, h1]
        rw [agg_unit_cons_header _ r0 rest h0, if_pos hha]
        exact foldl_agg_row_drop rest _ fun r hr => foldl_agg_row_handled rest s1 r hr
      rw [agg_unit_cons_header s r0 rest h0]
      by_cases hadded : s.header_added = true
      · rw [if_pos hadded]
        exact hs1 s hadded
      · rw [if_neg hadded]
        exact hs1 _ rfl
    · have hfold : (r0 :: rest).foldl agg_row ((r0 :: rest).foldl agg_row s) =
          (r0 :: rest).foldl agg_row s :=
        foldl_agg_row_drop (r0 :: rest) _
          fun r hr => foldl_agg_row_handled (r0 :: rest) s r hr
      rw [agg_unit_cons_data s r0 rest h0, agg_unit_cons_data _ r0 rest h0]
      exact hfold

/-- Processing one row preserves the output invariant: every data row in the
output has cells, a non-empty identifier, and its identifier is recorded; the
identifiers of the output data rows are pairwise distinct. -/
theorem agg_row_inv (s : AggState) (r : Row)
    (h1 : ∀ x ∈ s.aggregated, x.header = false → x.cells ≠ [] ∧ row_id x ≠ "" ∧ row_id x ∈ s.seen_ids)
    (h2 : ((s.aggregated.filter fun x => !x.header).map row_id).Nodup) :
    (∀ x ∈ (agg_row s r).aggregated, x.header = false →
       x.cells ≠ [] ∧ row_id x ≠ "" ∧ row_id x ∈ (agg_row s r).seen_ids) ∧
    (((agg_row s r).aggregated.filter fun x => !x.header).map row_id).Nodup := by
  rcases agg_row_cases s r with heq | ⟨hcne, hid, hnotin, heq⟩
  · rw [heq]
    exact ⟨h1, h2⟩
  · rw [heq]
    by_cases hr : r.header = true
    · constructor
      · intro x hx hxd
        rcases List.mem_append.mp hx with hx | hx
        · obtain ⟨a, b, c⟩ := h1 x hx hxd
          exact ⟨a, b, List.mem_cons_of_mem _ c⟩
        · rw [List.mem_singleton.mp hx] at hxd
          rw [hr] at hxd
          exact absurd hxd (by simp)
      · simpa [List.filter_append, hr] using h2
    · have hr' : r.header = false := by simpa using hr
      constructor
      · intro x hx hxd
        rcases List.mem_append.mp hx with hx | hx
        · obtain ⟨a, b, c⟩ := h1 x hx hxd
          exact ⟨a, b, List.mem_cons_of_mem _ c⟩
        · rw [List.mem_singleton.mp hx]
          exact ⟨hcne, hid, List.mem_cons_self _ _⟩
      · rw [List.filter_append, List.map_append]
        have hfr : List.filter (fun x => !x.header) [r] = [r] := by
          simp [List.filter, hr']
        rw [hfr]
        rw [List.nodup_append]
        refine ⟨h2, List.nodup_singleton _, ?_⟩
        intro y hy hz
        have hyr : y = row_id r := by simpa using hz
        obtain ⟨x, hxf, hxid⟩ := List.mem_map.mp hy
        obtain ⟨hxmem, hxd⟩ := List.mem_filter.mp hxf
        obtain ⟨_, _, hseen⟩ := h1 x hxmem (by simpa using hxd)
        rw [hxid, hyr] at hseen
        exact hnotin hseen

/-- Adding the header row of a unit preserves the output invariant. -/
theorem agg_header_add_inv (s : AggState) (r0 : Row) (hr0 : r0.header = true)
    (h1 : ∀ x ∈ s.aggregated, x.header = false → x.cells ≠ [] ∧ row_id x ≠ "" ∧ row_id x ∈ s.seen_ids)
    (h2 : ((s.aggregated.filter fun x => !x.header).map row_id).Nodup) :
    (∀ x ∈ s.aggregated ++ [r0], x.header = false →
       x.cells ≠ [] ∧ row_id x ≠ "" ∧ row_id x ∈ s.seen_ids) ∧
    ((((s.aggregated ++ [r0]).filter fun x => !x.header).map row_id).Nodup) := by
  constructor
  · intro x hx hxd
    rcases List.mem_append.mp hx with hx | hx
    · exact h1 x hx hxd
    · rw [List.mem_singleton.mp hx] at hxd
      rw [hr0] at hxd
      exact absurd hxd (by simp)
  · simpa [List.filter_append, hr0] using h2

/-- Folding a list of rows preserves the output invariant. -/
theorem foldl_agg_row_inv (rows : List Row) :
    ∀ s : AggState,
      (∀ x ∈ s.aggregated, x.header = false → x.cells ≠ [] ∧ row_id x ≠ "" ∧ row_id x ∈ s.seen_ids) →
      ((s.aggregated.filter fun x => !x.header).map row_id).Nodup →
      (∀ x ∈ (rows.foldl agg_row s).aggregated, x.header = false →
         x.cells ≠ [] ∧ row_id x ≠ "" ∧ row_id x ∈ (rows.foldl agg_row s).seen_ids) ∧
      (((rows.foldl agg_row s).aggregated.filter fun x => !x.header).map row_id).Nodup := by
  induction rows with
  | nil => intro s h1 h2; exact ⟨h1, h2⟩
  | cons r rest ih =>
    intro s h1 h2
    obtain ⟨h1', h2'⟩ := agg_row_inv s r h1 h2
    exact ih (agg_row s r) h1' h2'

/-- Processing one unit result preserves the output invariant. -/
theorem agg_unit_inv (res : List Row) (s : AggState)
    (h1 : ∀ x ∈ s.aggregated, x.header = false → x.cells ≠ [] ∧ row_id x ≠ "" ∧ row_id x ∈ s.seen_ids)
    (h2 : ((s.aggregated.filter fun x => !x.header).map row_id).Nodup) :
    (∀ x ∈ (agg_unit s res).aggregated, x.header = false →
       x.cells ≠ [] ∧ row_id x ≠ "" ∧ row_id x ∈ (agg_unit s res).seen_ids) ∧
    (((agg_unit s res).aggregated.filter fun x => !x.header).map row_id).Nodup := by
  cases res with
  | nil => exact ⟨h1, h2⟩
  | cons r0 rest =>
    by_cases h0 : r0.header = true
    · rw [agg_unit_cons_header s r0 rest h0]
      by_cases hadded : s.header_added = true
      · rw [if_pos hadded]
        exact foldl_agg_row_inv rest s h1 h2
      · rw [if_neg hadded]
        obtain ⟨h1', h2'⟩ := agg_header_add_inv s r0 h0 h1 h2
        exact foldl_agg_row_inv rest _ h1' h2'
    · rw [agg_unit_cons_data s r0 rest h0]
      exact foldl_agg_row_inv (r0 :: rest) s h1 h2

/-- The output invariant holds after aggregating any list of unit results. -/
theorem aggregate_inv (units : List (List Row)) :
    ∀ s : AggState,
      (∀ x ∈ s.aggregated, x.header = false → x.cells ≠ [] ∧ row_id x ≠ "" ∧ row_id x ∈ s.seen_ids) →
      ((s.aggregated.filter fun x => !x.header).map row_id).Nodup →
      (∀ x ∈ (units.foldl agg_unit s).aggregated, x.header = false →
         x.cells ≠ [] ∧ row_id x ≠ "" ∧ row_id x ∈ (units.foldl agg_unit s).seen_ids) ∧
      (((units.foldl agg_unit s).aggregated.filter fun x => !x.header).map row_id).Nodup := by
  induction units with
  | nil => intro s h1 h2; exact ⟨h1, h2⟩
  | cons u us ih =>
    intro s h1 h2
    obtain ⟨h1', h2'⟩ := agg_unit_inv u s h1 h2
    exact ih (agg_unit s u) h1' h2'

/-- C4.  Deduplication idempotence (P3): (i) a row whose canonical identifier
(the stripped first cell, source line 1088) is empty or already seen leaves
the aggregation state unchanged, so the first occurrence wins and later
duplicates are silently dropped; (ii) processing the same unit result a
second time changes nothing; (iii) in particular aggregating the same unit
result twice yields the same final collection as aggregating it once, so each
of its kept rows appears exactly once; (iv) the identifiers of the data rows
of any aggregated output are pairwise distinct. -/
theorem dedup_idempotence :
    (∀ (s : AggState) (r : Row), (row_id r = "" ∨ row_id r ∈ s.seen_ids) → agg_row s r = s) ∧
    (∀ (s : AggState) (res : List Row), agg_unit (agg_unit s res) res = agg_unit s res) ∧
    (∀ res : List Row, aggregate_results [res, res] = aggregate_results [res]) ∧
    (∀ units : List (List Row),
       (((aggregate_results units).filter fun r => !r.header).map row_id).Nodup) := by
  refine ⟨agg_row_drop, agg_unit_idem, ?_, ?_⟩
  · intro res
    show (agg_unit (agg_unit ⟨false, [], []⟩ res) res).aggregated =
      (agg_unit ⟨false, [], []⟩ res).aggregated
    rw [agg_unit_idem]
  · intro units
    exact (aggregate_inv units ⟨false, [], []⟩ (by intro x hx; exact absurd hx (List.not_mem_nil x))
      (by simp)).2

/-- Witness for C4: a whitespace-only identifier is dropped, aggregating one
unit twice equals aggregating it once, and the output identifiers of a
concrete aggregation are distinct. -/
theorem dedup_idempotence_witness :
    agg_row ⟨false, [], []⟩ ⟨false, ["  ", "x"]⟩ = ⟨false, [], []⟩ ∧
    aggregate_results [[⟨false, ["7", "a"]⟩], [⟨false, ["7", "a"]⟩]] =
      aggregate_results [[⟨false, ["7", "a"]⟩]] ∧
    (((aggregate_results [[⟨false, ["7", "a"]⟩], [⟨false, ["8", "b"]⟩]]).filter
        fun r => !r.header).map row_id).Nodup :=
  ⟨dedup_idempotence.1 _ _ (Or.inl (by decide)),
   dedup_idempotence.2.2.1 [⟨false, ["7", "a"]⟩],
   dedup_idempotence.2.2.2 [[⟨false, ["7", "a"]⟩], [⟨false, ["8", "b"]⟩]]⟩

/-- The aggregated list only grows during a fold of rows, and every appended
row comes from the folded list. -/
theorem foldl_agg_row_acc (rows : List Row) :
    ∀ s : AggState, ∃ ext,
      (rows.foldl agg_row s).aggregated = s.aggregated ++ ext ∧ ∀ r ∈ ext, r ∈ rows := by
  induction rows with
  | nil => intro s; exact ⟨[], by simp, by simp⟩
  | cons r0 rest ih =>
    intro s
    rcases agg_row_cases s r0 with heq | ⟨_, _, _, heq⟩
    · obtain ⟨ext, hext, hmem⟩ := ih (agg_row s r0)
      refine ⟨ext, ?_, fun r hr => List.mem_cons_of_mem _ (hmem r hr)⟩
      rw [List.foldl_cons, hext, heq]
    · obtain ⟨ext, hext, hmem⟩ := ih (agg_row s r0)
      refine ⟨[r0] ++ ext, ?_, ?_⟩
      · rw [List.foldl_cons, hext, heq]
        simp
      · intro r hr
        rcases List.mem_append.mp hr with hr | hr
        · exact List.mem_cons.mpr (Or.inl (List.mem_singleton.mp hr))
        · exact List.mem_cons_of_mem _ (hmem r hr)

/-- C5 counterexample.  A single unit result that begins with a Header row but
contains a second Header row (the parser emits one header row per table with
`th` cells, so a page with two such tables produces exactly this shape): the
aggregation adds the second header row through the data-row path, and the
final collection contains two Header rows, refuting the claim that every
aggregation over units beginning with a Header row keeps exactly one. -/
theorem header_singularity_cex :
    (∀ u ∈ [[Row.mk true ["A"], Row.mk true ["B"]]],
       u ≠ [] ∧ (u.headD ⟨false, []⟩).header = true) ∧
    ((aggregate_results [[Row.mk true ["A"], Row.mk true ["B"]]]).countP fun r => r.header) = 2 := by
  decide

/-- C5 amended.  Header singularity (P4) holds when every unit result starts
with a Header row and contains no further Header row after it: the final
aggregated collection contains exactly one Header row and it is the first
element.  (Without the no-further-header proviso a later header row of the
same unit can be re-added through the data-row path, see the
counterexample.) -/
theorem header_singularity_amended (units : List (List Row))
    (hne : units ≠ [])
    (hshape : ∀ u ∈ units, u ≠ [] ∧ (u.headD ⟨false, []⟩).header = true ∧
       ∀ r ∈ u.tail, r.header = false) :
    ((aggregate_results units).countP fun r => r.header) = 1 ∧
    ∃ r0, (aggregate_results units).head? = some r0 ∧ r0.header = true := by
  have step : ∀ (u : List Row) (s : AggState),
      (u ≠ [] ∧ (u.headD ⟨false, []⟩).header = true ∧ ∀ r ∈ u.tail, r.header = false) →
      s.header_added = true → ((s.aggregated.countP fun r => r.header) = 1) →
      (∃ r0, s.aggregated.head? = some r0 ∧ r0.header = true) →
      (agg_unit s u).header_added = true ∧
      (((agg_unit s u).aggregated.countP fun r => r.header) = 1) ∧
      (∃ r0, (agg_unit s u).aggregated.head? = some r0 ∧ r0.header = true) := by
    intro u s hu hha hcount hhead
    obtain ⟨hune, huh, hutail⟩ := hu
    cases u with
    | nil => exact absurd rfl hune
    | cons h rest =>
      have hh : h.header = true := by simpa using huh
      rw [agg_unit_cons_header s h rest hh, if_pos hha]
      obtain ⟨ext, hacc, hmem⟩ := foldl_agg_row_acc rest s
      have hext0 : (ext.countP fun r => r.header) = 0 := by
        rw [List.countP_eq_zero]
        intro r hr
        have := hutail r (by simpa using hmem r hr)
        simp [this]
      refine ⟨?_, ?_, ?_⟩
      · rw [foldl_agg_row_header_added, hha]
      · rw [hacc, List.countP_append, hcount, hext0]
      · obtain ⟨r0, hr0, hr0h⟩ := hhead
        refine ⟨r0, ?_, hr0h⟩
        rw [hacc]
        cases hagg : s.aggregated with
        | nil => rw [hagg] at hr0; exact absurd hr0 (by simp)
        | cons a t =>
          rw [hagg] at hr0
          simpa using hr0
  have first : ∀ u : List Row,
      (u ≠ [] ∧ (u.headD ⟨false, []⟩).header = true ∧ ∀ r ∈ u.tail, r.header = false) →
      (agg_unit ⟨false, [], []⟩ u).header_added = true ∧
      (((agg_unit ⟨false, [], []⟩ u).aggregated.countP fun r => r.header) = 1) ∧
      (∃ r0, (agg_unit ⟨false, [], []⟩ u).aggregated.head? = some r0 ∧ r0.header = true) := by
    intro u hu
    obtain ⟨hune, huh, hutail⟩ := hu
    cases u with
    | nil => exact absurd rfl hune
    | cons h rest =>
      have hh : h.header = true := by simpa using huh
      rw [agg_unit_cons_header _ h rest hh, if_neg (by simp)]
      obtain ⟨ext, hacc, hmem⟩ := foldl_agg_row_acc rest
        ⟨true, [], [] ++ [h]⟩
      have hext0 : (ext.countP fun r => r.header) = 0 := by
        rw [List.countP_eq_zero]
        intro r hr
        have := hutail r (by simpa using hmem r hr)
        simp [this]
      refine ⟨?_, ?_, ?_⟩
      · rw [foldl_agg_row_header_added]
      · rw [hacc, List.countP_append, hext0]
        simp [hh]
      · refine ⟨h, ?_, hh⟩
        rw [hacc]
        simp
  have fold : ∀ (us : List (List Row)) (s : AggState),
      (∀ u ∈ us, u ≠ [] ∧ (u.headD ⟨false, []⟩).header = true ∧ ∀ r ∈ u.tail, r.header = false) →
      s.header_added = true → ((s.aggregated.countP fun r => r.header) = 1) →
      (∃ r0, s.aggregated.head? = some r0 ∧ r0.header = true) →
      (((us.foldl agg_unit s).aggregated.countP fun r => r.header) = 1) ∧
      (∃ r0, (us.foldl agg_unit s).aggregated.head? = some r0 ∧ r0.header = true) := by
    intro us
    induction us with
    | nil => intro s _ _ hcount hhead; exact ⟨hcount, hhead⟩
    | cons u rest ih =>
      intro s hsh hha hcount hhead
      obtain ⟨h1, h2, h3⟩ := step u s (hsh u (List.mem_cons_self _ _)) hha hcount hhead
      exact ih (agg_unit s u) (fun v hv => hsh v (List.mem_cons_of_mem _ hv)) h1 h2 h3
  cases units with
  | nil => exact absurd rfl hne
  | cons u us =>
    obtain ⟨h1, h2, h3⟩ := first u (hshape u (List.mem_cons_self _ _))
    exact fold us (agg_unit ⟨false, [], []⟩ u)
      (fun v hv => hshape v (List.mem_cons_of_mem _ hv)) h1 h2 h3

/-- Witness for the C5 amended theorem at `c5_units`. -/
theorem header_singularity_amended_witness :
    ((aggregate_results c5_units).countP fun r => r.header) = 1 ∧
    ∃ r0, (aggregate_results c5_units).head? = some r0 ∧ r0.header = true :=
  header_singularity_amended c5_units (by decide) (by decide)

/-- C10.  Implicit claim: every non-header row of an aggregated output has a
non-empty cells list and a non-empty (after stripping) first cell; hence a
data row whose first cell is empty or whitespace-only is never added to the
aggregated output, even when it is unique and its other cells are non-empty
(the `row_id` truthiness guard, source line 1089). -/
theorem empty_id_row_dropped (units : List (List Row)) (r : Row)
    (hr : r ∈ aggregate_results units) (hd : r.header = false) :
    r.cells ≠ [] ∧ row_id r ≠ "" := by
  have h := (aggregate_inv units ⟨false, [], []⟩
    (by intro x hx; exact absurd hx (List.not_mem_nil x)) (by simp)).1 r hr hd
  exact ⟨h.1, h.2.1⟩

/-- Witness for C10: the kept row of a concrete aggregation (which also drops
a whitespace-identifier row) has a non-empty identifier. -/
theorem empty_id_row_dropped_witness :
    (Row.mk false ["7", "a"]).cells ≠ [] ∧ row_id (Row.mk false ["7", "a"]) ≠ "" :=
  empty_id_row_dropped [[⟨false, ["  ", "zzz"]⟩, ⟨false, ["7", "a"]⟩]] _ (by decide) rfl

/-! ### Create executor: retry bound and 401 handling -/

/-- The attempt counter grows by at most the remaining iteration budget. -/
theorem run_retry_go_attempts_le (outcome : Nat → AttemptOut) :
    ∀ (rem att : Nat) (res : CreateResult),
      (run_retry_go outcome rem att res).2 ≤ att + rem := by
  intro rem
  induction rem with
  | zero => intro att res; simp [run_retry_go]
  | succ rem ih =>
    intro att res
    cases ho : outcome (att + 1) with
    | exn e =>
      simp only [run_retry_go, ho]
      by_cases h : rem = 0
      · rw [if_pos h]
        omega
      · rw [if_neg h]
        exact (ih (att + 1) _).trans (by omega)
    | resp status text =>
      simp only [run_retry_go, ho]
      by_cases h401 : status = 401
      · rw [if_pos h401]
        by_cases h : rem = 0
        · rw [if_pos h]
          omega
        · rw [if_neg h]
          exact (ih (att + 1) _).trans (by omega)
      · rw [if_neg h401]
        by_cases h400 : 400 ≤ status
        · rw [if_pos h400]
          by_cases h : rem = 0
          · rw [if_pos h]
            omega
          · rw [if_neg h]
            exact (ih (att + 1) _).trans (by omega)
        · rw [if_neg h400]
          omega

/-- The attempt counter never decreases. -/
theorem run_retry_go_attempts_ge (outcome : Nat → AttemptOut) :
    ∀ (rem att : Nat) (res : CreateResult),
      att ≤ (run_retry_go outcome rem att res).2 := by
  intro rem
  induction rem with
  | zero => intro att res; simp [run_retry_go]
  | succ rem ih =>
    intro att res
    cases ho : outcome (att + 1) with
    | exn e =>
      simp only [run_retry_go, ho]
      by_cases h : rem = 0
      · rw [if_pos h]
        omega
      · rw [if_neg h]
        exact le_trans (by omega) (ih (att + 1) _)
    | resp status text =>
      simp only [run_retry_go, ho]
      by_cases h401 : status = 401
      · rw [if_pos h401]
        by_cases h : rem = 0
        · rw [if_pos h]
          omega
        · rw [if_neg h]
          exact le_trans (by omega) (ih (att + 1) _)
      · rw [if_neg h401]
        by_cases h400 : 400 ≤ status
        · rw [if_pos h400]
          by_cases h : rem = 0
          · rw [if_pos h]
            omega
          · rw [if_neg h]
            exact le_trans (by omega) (ih (att + 1) _)
        · rw [if_neg h400]
          omega

/-- A successful attempt ends the loop with `success=True`, the response
status and the heuristic message. -/
theorem run_retry_go_success (outcome : Nat → AttemptOut) (rem att : Nat) (res : CreateResult)
    (s : Nat) (t : String) (ho : outcome (att + 1) = .resp s t)
    (h401 : s ≠ 401) (h400 : ¬(400 ≤ s)) :
    run_retry_go outcome (rem + 1) att res =
      ({ res with status := s, success := true, message := success_message t }, att + 1) := by
  simp only [run_retry_go, ho]
  rw [if_neg h401, if_neg h400]

/-- A raised exception with budget left updates the message and continues. -/
theorem run_retry_go_fail_step_exn (outcome : Nat → AttemptOut) (rem att : Nat)
    (res : CreateResult) (e : String) (ho : outcome (att + 1) = .exn e) :
    run_retry_go outcome (rem + 1 + 1) att res =
      run_retry_go outcome (rem + 1) (att + 1) { res with message := "POST error: " ++ e } := by
  simp only [run_retry_go, ho]
  rw [if_neg (by omega : ¬(rem + 1 = 0))]

/-- A failing HTTP status (401 or at least 400, both raised inside the `try`)
with budget left stores the status, updates the message with the raised error
text, and continues with the next attempt. -/
theorem run_retry_go_fail_step_resp (outcome : Nat → AttemptOut) (rem att : Nat)
    (res : CreateResult) (s : Nat) (t : String) (ho : outcome (att + 1) = .resp s t)
    (hfail : s = 401 ∨ 400 ≤ s) :
    run_retry_go outcome (rem + 1 + 1) att res =
      run_retry_go outcome (rem + 1) (att + 1)
        { res with status := s,
                   message := "POST error: " ++ exc_text (.resp s t) } := by
  simp only [run_retry_go, ho]
  by_cases h401 : s = 401
  · rw [if_pos h401]
    rw [if_neg (by omega : ¬(rem + 1 = 0))]
  · have h400 : 400 ≤ s := by
      rcases hfail with h | h
      · exact absurd h h401
      · exact h
    rw [if_neg h401, if_pos h400, if_neg (by omega : ¬(rem + 1 = 0))]

/-- A raised exception on the last attempt ends the loop with the
retry-exhaustion message. -/
theorem run_retry_go_fail_last_exn (outcome : Nat → AttemptOut) (att : Nat)
    (res : CreateResult) (e : String) (ho : outcome (att + 1) = .exn e) :
    run_retry_go outcome 1 att res =
      ({ res with success := false,
                  message := "Failed after " ++ toString MAX_RETRIES ++ " attempts: " ++ e },
       att + 1) := by
  show run_retry_go outcome (0 + 1) att res = _
  simp only [run_retry_go, ho]
  simp

/-- A failing HTTP status on the last attempt ends the loop with the
retry-exhaustion message and the stored status. -/
theorem run_retry_go_fail_last_resp (outcome : Nat → AttemptOut) (att : Nat)
    (res : CreateResult) (s : Nat) (t : String) (ho : outcome (att + 1) = .resp s t)
    (hfail : s = 401 ∨ 400 ≤ s) :
    run_retry_go outcome 1 att res =
      ({ res with success := false, status := s,
                  message := "Failed after " ++ toString MAX_RETRIES ++ " attempts: "
                             ++ exc_text (.resp s t) },
       att + 1) := by
  show run_retry_go outcome (0 + 1) att res = _
  simp only [run_retry_go, ho]
  by_cases h401 : s = 401
  · rw [if_pos h401]
    simp [exc_text, h401]
  · have h400 : 400 ≤ s := by
      rcases hfail with h | h
      · exact absurd h h401
      · exact h
    rw [if_neg h401, if_pos h400]
    simp [exc_text, h401]

/-- The two fixed success messages of the heuristic. -/
theorem success_message_cases (t : String) :
    success_message t = "Blackhole created successfully (POST)" ∨
    success_message t = "POST submitted (no error detected)" := by
  unfold success_message
  split
  · exact Or.inl rfl
  · exact Or.inr rfl

/-- A non-failing attempt is a response that is neither 401 nor an HTTP
error. -/
theorem attempt_not_fails (o : AttemptOut) (h : attempt_fails o = false) :
    ∃ s t, o = .resp s t ∧ s ≠ 401 ∧ ¬(400 ≤ s) := by
  cases o with
  | exn e => exact absurd h (by simp [attempt_fails])
  | resp s t =>
    rw [attempt_fails] at h
    simp only [Bool.or_eq_false_iff, decide_eq_false_iff_not] at h
    exact ⟨s, t, rfl, h.1, h.2⟩

/-- Any failing attempt with budget left continues with the next attempt
(for some updated result record). -/
theorem run_retry_go_fail_step_ex (outcome : Nat → AttemptOut) (rem att : Nat)
    (res : CreateResult) (h : attempt_fails (outcome (att + 1)) = true) :
    ∃ res2, run_retry_go outcome (rem + 1 + 1) att res =
      run_retry_go outcome (rem + 1) (att + 1) res2 := by
  cases ho : outcome (att + 1) with
  | exn e => exact ⟨_, run_retry_go_fail_step_exn outcome rem att res e ho⟩
  | resp s t =>
    rw [ho, attempt_fails] at h
    simp only [Bool.or_eq_true, decide_eq_true_eq] at h
    exact ⟨_, run_retry_go_fail_step_resp outcome rem att res s t ho h⟩

/-- Any failing attempt with no budget left ends the loop with
`success=False`, the retry-exhaustion message built from the raised error
text, and a final attempt count of `att + 1`. -/
theorem run_retry_go_fail_last_all (outcome : Nat → AttemptOut) (att : Nat)
    (res : CreateResult) (h : attempt_fails (outcome (att + 1)) = true) :
    (run_retry_go outcome 1 att res).1.success = false ∧
    (run_retry_go outcome 1 att res).1.message =
      "Failed after " ++ toString MAX_RETRIES ++ " attempts: " ++ exc_text (outcome (att + 1)) ∧
    (run_retry_go outcome 1 att res).2 = att + 1 := by
  cases ho : outcome (att + 1) with
  | exn e =>
    rw [run_retry_go_fail_last_exn outcome att res e ho]
    exact ⟨rfl, by simp [exc_text], rfl⟩
  | resp s t =>
    rw [ho, attempt_fails] at h
    simp only [Bool.or_eq_true, decide_eq_true_eq] at h
    rw [run_retry_go_fail_last_resp outcome att res s t ho h]
    exact ⟨rfl, rfl, rfl⟩

/-- A non-failing attempt with budget ends the loop with `success=True`, one
of the two success messages, and attempt count `att + 1`. -/
theorem run_retry_go_success_all (outcome : Nat → AttemptOut) (rem att : Nat)
    (res : CreateResult) (h : attempt_fails (outcome (att + 1)) = false) :
    (run_retry_go outcome (rem + 1) att res).1.success = true ∧
    ((run_retry_go outcome (rem + 1) att res).1.message =
        "Blackhole created successfully (POST)" ∨
     (run_retry_go outcome (rem + 1) att res).1.message =
        "POST submitted (no error detected)") ∧
    (run_retry_go outcome (rem + 1) att res).2 = att + 1 := by
  obtain ⟨s, t, ho, h401, h400⟩ := attempt_not_fails _ h
  rw [run_retry_go_success outcome rem att res s t ho h401 h400]
  exact ⟨rfl, success_message_cases t, rfl⟩

/-- C6.  Create retry bound: the per-IP retry loop makes at most
`MAX_RETRIES = 3` POST attempts (with the fixed `RETRY_DELAY` between
attempts, not modelled as real time); if the attempts before `j ≤ 3` all fail
and attempt `j` succeeds, the final record has `success=True`, exactly `j`
attempts were made, and the message is one of the two success messages (no
retry-exhaustion message); the record is marked a final failure only when all
3 attempts fail, with the exhaustion message built from the last raised
error. -/
theorem create_retry_bound (outcome : Nat → AttemptOut) :
    (run_retry outcome).2 ≤ MAX_RETRIES ∧
    (∀ j, 1 ≤ j → j ≤ MAX_RETRIES →
       (∀ i, 1 ≤ i → i < j → attempt_fails (outcome i) = true) →
       attempt_fails (outcome j) = false →
       (run_retry outcome).1.success = true ∧ (run_retry outcome).2 = j ∧
       ((run_retry outcome).1.message = "Blackhole created successfully (POST)" ∨
        (run_retry outcome).1.message = "POST submitted (no error detected)")) ∧
    ((∀ i, 1 ≤ i → i ≤ MAX_RETRIES → attempt_fails (outcome i) = true) →
       (run_retry outcome).1.success = false ∧ (run_retry outcome).2 = MAX_RETRIES ∧
       (run_retry outcome).1.message =
         "Failed after " ++ toString MAX_RETRIES ++ " attempts: "
         ++ exc_text (outcome MAX_RETRIES)) := by
  have hrun : run_retry outcome = run_retry_go outcome (1 + 1 + 1) 0 ⟨false, 0, ""⟩ := rfl
  refine ⟨?_, ?_, ?_⟩
  · have h := run_retry_go_attempts_le outcome MAX_RETRIES 0 ⟨false, 0, ""⟩
    simpa [run_retry] using h
  · intro j hj1 hj3 hprev hsucc
    have hj3' : j ≤ 3 := hj3
    interval_cases j
    · have h := run_retry_go_success_all outcome (1 + 1) 0 ⟨false, 0, ""⟩ hsucc
      rw [hrun]
      exact ⟨h.1, h.2.2, h.2.1⟩
    · have hf1 : attempt_fails (outcome (0 + 1)) = true := hprev 1 (by omega) (by omega)
      obtain ⟨res2, hstep1⟩ := run_retry_go_fail_step_ex outcome 1 0 ⟨false, 0, ""⟩ hf1
      have h := run_retry_go_success_all outcome 1 1 res2 hsucc
      rw [hrun, hstep1]
      exact ⟨h.1, h.2.2, h.2.1⟩
    · have hf1 : attempt_fails (outcome (0 + 1)) = true := hprev 1 (by omega) (by omega)
      have hf2 : attempt_fails (outcome (1 + 1)) = true := hprev 2 (by omega) (by omega)
      obtain ⟨res2, hstep1⟩ := run_retry_go_fail_step_ex outcome 1 0 ⟨false, 0, ""⟩ hf1
      obtain ⟨res3, hstep2⟩ := run_retry_go_fail_step_ex outcome 0 1 res2 hf2
      have e1 : run_retry_go outcome (1 + 1) 1 res2 = run_retry_go outcome (0 + 1 + 1) 1 res2 :=
        rfl
      have h := run_retry_go_success_all outcome 0 2 res3 hsucc
      rw [hrun, hstep1, e1, hstep2]
      exact ⟨h.1, h.2.2, h.2.1⟩
  · intro hall
    have hf1 : attempt_fails (outcome (0 + 1)) = true := hall 1 (by omega) (by decide)
    have hf2 : attempt_fails (outcome (1 + 1)) = true := hall 2 (by omega) (by decide)
    have hf3 : attempt_fails (outcome (2 + 1)) = true := hall 3 (by omega) (by decide)
    obtain ⟨res2, hstep1⟩ := run_retry_go_fail_step_ex outcome 1 0 ⟨false, 0, ""⟩ hf1
    obtain ⟨res3, hstep2⟩ := run_retry_go_fail_step_ex outcome 0 1 res2 hf2
    have e1 : run_retry_go outcome (1 + 1) 1 res2 = run_retry_go outcome (0 + 1 + 1) 1 res2 :=
      rfl
    have e2 : run_retry_go outcome (0 + 1) 2 res3 = run_retry_go outcome 1 2 res3 := rfl
    have h := run_retry_go_fail_last_all outcome 2 res3 hf3
    rw [hrun, hstep1, e1, hstep2, e2]
    exact ⟨h.1, h.2.2, h.2.1⟩

/-- Witness for C6: with failures on attempts 1 and 2 and success on attempt
3, the final record is successful after exactly 3 attempts with a success
message. -/
theorem create_retry_bound_witness :
    (run_retry c6_outcome).1.success = true ∧ (run_retry c6_outcome).2 = 3 ∧
    ((run_retry c6_outcome).1.message = "Blackhole created successfully (POST)" ∨
     (run_retry c6_outcome).1.message = "POST submitted (no error detected)") :=
  (create_retry_bound c6_outcome).2.1 3 (by omega) (by decide)
    (by intro i h1 h2; interval_cases i <;> decide) (by decide)

/-- When at least one iteration budget remains, at least one more attempt is
made. -/
theorem run_retry_go_attempts_ge_succ (outcome : Nat → AttemptOut) (rem att : Nat)
    (res : CreateResult) :
    att + 1 ≤ (run_retry_go outcome (rem + 1) att res).2 := by
  cases ho : outcome (att + 1) with
  | exn e =>
    simp only [run_retry_go, ho]
    by_cases h : rem = 0
    · rw [if_pos h]
    · rw [if_neg h]
      cases rem with
      | zero => exact absurd rfl h
      | succ rem2 => exact le_trans (le_refl _) (run_retry_go_attempts_ge outcome (rem2 + 1) (att + 1) _)
  | resp status text =>
    simp only [run_retry_go, ho]
    by_cases h401 : status = 401
    · rw [if_pos h401]
      by_cases h : rem = 0
      · rw [if_pos h]
      · rw [if_neg h]
        cases rem with
        | zero => exact absurd rfl h
        | succ rem2 =>
          exact le_trans (le_refl _) (run_retry_go_attempts_ge outcome (rem2 + 1) (att + 1) _)
    · rw [if_neg h401]
      by_cases h400 : 400 ≤ status
      · rw [if_pos h400]
        by_cases h : rem = 0
        · rw [if_pos h]
        · rw [if_neg h]
          cases rem with
          | zero => exact absurd rfl h
          | succ rem2 =>
            exact le_trans (le_refl _) (run_retry_go_attempts_ge outcome (rem2 + 1) (att + 1) _)
      · rw [if_neg h400]

/-- A list always starts with itself, whatever follows. -/
theorem chars_starts_with_append (p r : List Char) :
    chars_starts_with p (p ++ r) = true := by
  induction p with
  | nil => rfl
  | cons c cs ih => simp [chars_starts_with, ih]

/-- C7 counterexample.  The claim that the Create executor does not
re-attempt a request that returned 401 is false: the 401 raise happens inside
the `try` of the retry loop (CreateBlackhole.py lines 107 to 108) and is
caught by the `except` that retries on any exception, so with a 401 on
attempt 1 and a 200 on attempt 2 the loop makes 2 POST attempts and ends
successfully. -/
theorem auth_error_cex :
    c7_outcome 1 = .resp 401 "" ∧
    (run_retry c7_outcome).2 = 2 ∧
    (run_retry c7_outcome).1.success = true :=
  ⟨rfl, rfl, rfl⟩

/-- C7 amended.  HTTP 401 is reported through a distinct error message: the
Retrieve executor surfaces it immediately (its fetch performs a single
request, no retry loop exists on that path) as a `RetrievalError` whose text
differs from the generic HTTP-error text for every status; the Create
executor also raises a distinct 401 message, but its retry loop catches that
error like any other exception and re-attempts, up to the 3-attempt bound. -/
theorem auth_error_amended :
    (∀ tables : List (List Tr),
       http_fetch_and_parse 401 tables = .error ("Retrieval failed: " ++ err_401_retrieve)) ∧
    (∀ s : Nat, err_401_retrieve ≠ err_http_retrieve s ∧ err_401_create ≠ err_http_create s) ∧
    (∀ (outcome : Nat → AttemptOut) (t : String),
       outcome 1 = .resp 401 t → 2 ≤ (run_retry outcome).2) := by
  refine ⟨?_, ?_, ?_⟩
  · intro tables
    rfl
  · intro s
    constructor
    · intro h
      have hd := congrArg String.data h
      rw [err_http_retrieve] at hd
      rw [String.data_append, String.data_append, List.append_assoc] at hd
      have h2 : chars_starts_with ("HTTP search returned status ").data
          err_401_retrieve.data = true := by
        rw [hd]
        exact chars_starts_with_append _ _
      exact absurd h2 (by decide)
    · intro h
      have hd := congrArg String.data h
      rw [err_http_create] at hd
      rw [String.data_append] at hd
      have h2 : chars_starts_with ("HTTP POST returned status ").data
          err_401_create.data = true := by
        rw [hd]
        exact chars_starts_with_append _ _
      exact absurd h2 (by decide)
  · intro outcome t ho
    have hfail : attempt_fails (outcome (0 + 1)) = true := by
      rw [show outcome (0 + 1) = .resp 401 t from ho, attempt_fails]
      simp
    obtain ⟨res2, hstep⟩ := run_retry_go_fail_step_ex outcome 1 0 ⟨false, 0, ""⟩ hfail
    have hge := run_retry_go_attempts_ge_succ outcome 1 (0 + 1) res2
    have hrun : run_retry outcome = run_retry_go outcome (1 + 1 + 1) 0 ⟨false, 0, ""⟩ := rfl
    rw [hrun, hstep]
    omega

/-- Witness for the C7 amended theorem: the 401 path of the Retrieve model at
a concrete page, message distinctness at status 403, and the Create retry of
a 401 in `c7_outcome`. -/
theorem auth_error_amended_witness :
    http_fetch_and_parse 401 [] = .error ("Retrieval failed: " ++ err_401_retrieve) ∧
    err_401_retrieve ≠ err_http_retrieve 403 ∧
    2 ≤ (run_retry c7_outcome).2 :=
  ⟨auth_error_amended.1 [], (auth_error_amended.2.1 403).1,
   auth_error_amended.2.2 c7_outcome "" rfl⟩

/-! ### Table parser: sentinel and non-empty-cell invariant -/

/-- Every row appended by `proc_tr` has at least one non-empty cell. -/
theorem proc_tr_mem (out : List Row) (tr : Tr) (r : Row) (hr : r ∈ proc_tr out tr) :
    r ∈ out ∨ ∃ c ∈ r.cells, c ≠ "" := by
  unfold proc_tr at hr
  split at hr
  · exact Or.inl hr
  · split at hr
    · exact Or.inl hr
    · split at hr
      · rename_i hany
        rcases List.mem_append.mp hr with hr | hr
        · exact Or.inl hr
        · right
          rw [List.mem_singleton.mp hr]
          obtain ⟨c, hc, hcne⟩ := List.any_eq_true.mp hany
          exact ⟨c, hc, by simpa using hcne⟩
      · exact Or.inl hr

/-- Every row appended by a fold of `proc_tr` has at least one non-empty
cell. -/
theorem foldl_proc_tr_mem (trs : List Tr) :
    ∀ (out : List Row) (r : Row), r ∈ trs.foldl proc_tr out →
      r ∈ out ∨ ∃ c ∈ r.cells, c ≠ "" := by
  induction trs with
  | nil => intro out r hr; exact Or.inl hr
  | cons tr rest ih =>
    intro out r hr
    rcases ih (proc_tr out tr) r hr with hr | hr
    · exact proc_tr_mem out tr r hr
    · exact Or.inr hr

/-- Every row appended by `proc_table` has at least one non-empty cell (a
kept header row requires a non-empty header text, a kept data row a
non-empty cell). -/
theorem proc_table_mem (out : List Row) (trs : List Tr) (r : Row)
    (hr : r ∈ proc_table out trs) : r ∈ out ∨ ∃ c ∈ r.cells, c ≠ "" := by
  unfold proc_table at hr
  split at hr
  · exact Or.inl hr
  · split at hr
    · rename_i i hfind
      rcases foldl_proc_tr_mem _ _ r hr with hr | hr
      · split at hr
        · rename_i hany
          rcases List.mem_append.mp hr with hr | hr
          · exact Or.inl hr
          · right
            rw [List.mem_singleton.mp hr]
            obtain ⟨c, hc, hcne⟩ := List.any_eq_true.mp hany
            exact ⟨c, hc, by simpa using hcne⟩
        · exact Or.inl hr
      · exact Or.inr hr
    · exact foldl_proc_tr_mem _ _ r hr

/-- Every row of `build_rows` has at least one non-empty cell. -/
theorem build_rows_mem (tables : List (List Tr)) :
    ∀ r ∈ build_rows tables, ∃ c ∈ r.cells, c ≠ "" := by
  unfold build_rows
  have hgen : ∀ (ts : List (List Tr)) (out : List Row) (r : Row),
      r ∈ ts.foldl proc_table out → r ∈ out ∨ ∃ c ∈ r.cells, c ≠ "" := by
    intro ts
    induction ts with
    | nil => intro out r hr; exact Or.inl hr
    | cons t rest ih =>
      intro out r hr
      rcases ih (proc_table out t) r hr with hr | hr
      · exact proc_table_mem out t r hr
      · exact Or.inr hr
  intro r hr
  rcases hgen tables [] r hr with hr | hr
  · exact absurd hr (List.not_mem_nil r)
  · exact hr

/-- C8.  Parser output shape: `_parse_tables_in_page` returns the
single-empty-row sentinel `[{cells: []}]` exactly when no rows survive
(first conjunct), and otherwise every Data row of the output has at least
one non-empty cell, because fully-empty rows are discarded by the
`any(cells)` guard (second conjunct). -/
theorem parser_output_shape (tables : List (List Tr)) :
    (parse_tables_in_page tables = [⟨false, []⟩] ↔ build_rows tables = []) ∧
    (build_rows tables ≠ [] →
       ∀ r ∈ parse_tables_in_page tables, r.header = false → ∃ c ∈ r.cells, c ≠ "") := by
  constructor
  · constructor
    · intro h
      by_cases hb : build_rows tables = []
      · exact hb
      · exfalso
        have hb' : (build_rows tables).isEmpty = false := by
          cases hbt : build_rows tables with
          | nil => exact absurd hbt hb
          | cons a t => rfl
        rw [parse_tables_in_page] at h
        rw [hb'] at h
        simp only [Bool.false_eq_true, if_false] at h
        have : (⟨false, []⟩ : Row) ∈ build_rows tables := by
          rw [h]
          exact List.mem_singleton.mpr rfl
        obtain ⟨c, hc, _⟩ := build_rows_mem tables _ this
        exact absurd hc (List.not_mem_nil c)
    · intro h
      rw [parse_tables_in_page, h]
      rfl
  · intro hb r hr _
    have hb' : (build_rows tables).isEmpty = false := by
      cases hbt : build_rows tables with
      | nil => exact absurd hbt hb
      | cons a t => rfl
    rw [parse_tables_in_page, hb'] at hr
    simp only [Bool.false_eq_true, if_false] at hr
    exact build_rows_mem tables r hr

/-- Witness for C8 at `c8_tables`: the surviving rows are non-sentinel and
every data row has a non-empty cell. -/
theorem parser_output_shape_witness :
    build_rows c8_tables ≠ [] ∧
    (∀ r ∈ parse_tables_in_page c8_tables, r.header = false → ∃ c ∈ r.cells, c ≠ "") :=
  ⟨by decide, (parser_output_shape c8_tables).2 (by decide)⟩

/-! ### Pooled connection client: per-thread exclusivity -/

/-- Equation of `_get_session`: a live thread-local session is returned
unchanged. -/
theorem get_session_hit (t : Nat) (s : ClientState) (sid : Nat)
    (hts : s.tls t = some sid) (hc : s.closed sid = false) :
    get_session t s = (sid, s) := by
  unfold get_session
  rw [hts]
  show (if s.closed sid = true then create_session t s else (sid, s)) = (sid, s)
  rw [hc]
  simp

/-- Equation of `_get_session`: a closed thread-local session is replaced by
a fresh one. -/
theorem get_session_closed (t : Nat) (s : ClientState) (sid : Nat)
    (hts : s.tls t = some sid) (hc : s.closed sid = true) :
    get_session t s = create_session t s := by
  unfold get_session
  rw [hts]
  show (if s.closed sid = true then create_session t s else (sid, s)) = _
  rw [if_pos hc]

/-- Equation of `_get_session`: with no thread-local session a fresh one is
created. -/
theorem get_session_none (t : Nat) (s : ClientState) (hts : s.tls t = none) :
    get_session t s = create_session t s := by
  unfold get_session
  rw [hts]

/-- The invariant holds in a fresh client. -/
theorem client_inv_init : client_inv init_client := by
  refine ⟨?_, ?_, ?_, ?_, ?_⟩
  · intro t sid h
    exact absurd h (by simp [init_client])
  · intro sid h
    exact absurd h (by simp [init_client])
  · intro sid h
    exact absurd h (by simp [init_client])
  · intro sid _
    rfl
  · intro sid h
    exact absurd h (List.not_mem_nil sid)

/-- Creating a session preserves the invariant, provided the calling thread
owns no live session (which `_get_session` guarantees before it calls
`_create_session`). -/
theorem client_inv_create (t : Nat) (s : ClientState) (h : client_inv s)
    (hlive : ∀ sid, sid < s.next_sid → s.closed sid = false → s.owner sid ≠ t) :
    client_inv (create_session t s).2 := by
  obtain ⟨h1, h2, h3, h4, h5⟩ := h
  refine ⟨?_, ?_, ?_, ?_, ?_⟩
  · intro t' sid' htls
    simp only [create_session] at htls ⊢
    by_cases ht : t' = t
    · rw [if_pos ht] at htls
      have hsid : sid' = s.next_sid := by
        injection htls with hh
        omega
      subst hsid
      rw [if_pos rfl]
      exact ⟨ht.symm, by omega⟩
    · rw [if_neg ht] at htls
      obtain ⟨ho, hlt⟩ := h1 t' sid' htls
      rw [if_neg (by omega)]
      exact ⟨ho, by omega⟩
  · intro sid' hlt hcl
    simp only [create_session] at hlt hcl ⊢
    by_cases hs : sid' = s.next_sid
    · subst hs
      exact List.mem_append.mpr (Or.inr (List.mem_singleton.mpr rfl))
    · exact List.mem_append.mpr (Or.inl (h2 sid' (by omega) hcl))
  · intro sid' hlt hcl
    simp only [create_session] at hlt hcl ⊢
    by_cases hs : sid' = s.next_sid
    · subst hs
      rw [if_pos rfl, if_pos rfl]
    · rw [if_neg hs]
      have hlt' : sid' < s.next_sid := by omega
      have hrec := h3 sid' hlt' hcl
      rw [if_neg ?hne]
      case hne =>
        intro hc
        exact hlive sid' hlt' hcl (hc ▸ rfl)
      exact hrec
  · intro sid' hge
    simp only [create_session] at hge ⊢
    exact h4 sid' (by omega)
  · intro sid' hmem
    simp only [create_session] at hmem ⊢
    rcases List.mem_append.mp hmem with hmem | hmem
    · have := h5 sid' hmem
      omega
    · rw [List.mem_singleton.mp hmem]
      omega

/-- One `_get_session` call preserves the invariant. -/
theorem client_inv_get (t : Nat) (s : ClientState) (h : client_inv s) :
    client_inv (get_session t s).2 := by
  obtain ⟨h1, h2, h3, h4, h5⟩ := h
  cases hts : s.tls t with
  | some sid =>
    by_cases hc : s.closed sid = true
    · rw [get_session_closed t s sid hts hc]
      refine client_inv_create t s ⟨h1, h2, h3, h4, h5⟩ ?_
      intro sid' hlt hcl ho
      have hrec := h3 sid' hlt hcl
      rw [ho, hts] at hrec
      have hss : sid' = sid := by
        injection hrec with hh
        omega
      subst hss
      rw [hc] at hcl
      exact absurd hcl (by simp)
    · have hc' : s.closed sid = false := by
        cases hcc : s.closed sid with
        | true => exact absurd hcc hc
        | false => rfl
      rw [get_session_hit t s sid hts hc']
      exact ⟨h1, h2, h3, h4, h5⟩
  | none =>
    rw [get_session_none t s hts]
    refine client_inv_create t s ⟨h1, h2, h3, h4, h5⟩ ?_
    intro sid' hlt hcl ho
    have hrec := h3 sid' hlt hcl
    rw [ho, hts] at hrec
    exact absurd hrec (by simp)

/-- One `dispose` call preserves the invariant. -/
theorem client_inv_dispose (t : Nat) (s : ClientState) (h : client_inv s) :
    client_inv (dispose_client t s) := by
  obtain ⟨h1, h2, h3, h4, h5⟩ := h
  refine ⟨?_, ?_, ?_, ?_, ?_⟩
  · intro t' sid' htls
    simp only [dispose_client] at htls ⊢
    by_cases ht : t' = t
    · rw [if_pos ht] at htls
      exact absurd htls (by simp)
    · rw [if_neg ht] at htls
      exact h1 t' sid' htls
  · intro sid' hlt hcl
    simp only [dispose_client] at hlt hcl ⊢
    by_cases hm : sid' ∈ s.tracked
    · rw [if_pos hm] at hcl
      exact absurd hcl (by simp)
    · rw [if_neg hm] at hcl
      exact absurd (h2 sid' hlt hcl) hm
  · intro sid' hlt hcl
    simp only [dispose_client] at hlt hcl ⊢
    by_cases hm : sid' ∈ s.tracked
    · rw [if_pos hm] at hcl
      exact absurd hcl (by simp)
    · rw [if_neg hm] at hcl
      exact absurd (h2 sid' hlt hcl) hm
  · intro sid' hge
    simp only [dispose_client] at hge ⊢
    have hnm : sid' ∉ s.tracked := by
      intro hc
      have := h5 sid' hc
      omega
    rw [if_neg hnm]
    exact h4 sid' hge
  · intro sid' hmem
    simp only [dispose_client] at hmem
    exact absurd hmem (List.not_mem_nil sid')

/-- Every reachable client state satisfies the invariant. -/
theorem client_reach_inv (s : ClientState) (h : ClientReach s) : client_inv s := by
  induction h with
  | init => exact client_inv_init
  | step_get t hr ih => exact client_inv_get t _ ih
  | step_dispose t hr ih => exact client_inv_dispose t _ ih

/-- After a `_get_session` call from thread `t`, the thread-local slot of `t`
holds the returned live session, and an immediate second call returns the
same session and leaves the state unchanged. -/
theorem get_session_stable (t : Nat) (s : ClientState) (h : client_inv s) :
    (get_session t s).2.tls t = some (get_session t s).1 ∧
    (get_session t s).2.closed (get_session t s).1 = false ∧
    get_session t (get_session t s).2 = ((get_session t s).1, (get_session t s).2) := by
  have h4 : ∀ sid, s.next_sid ≤ sid → s.closed sid = false := h.2.2.2.1
  have hcreate :
      (create_session t s).2.tls t = some (create_session t s).1 ∧
      (create_session t s).2.closed (create_session t s).1 = false ∧
      get_session t (create_session t s).2 =
        ((create_session t s).1, (create_session t s).2) := by
    have htls : (create_session t s).2.tls t = some (create_session t s).1 := by
      simp [create_session]
    have hcl : (create_session t s).2.closed (create_session t s).1 = false :=
      h4 s.next_sid (le_refl _)
    exact ⟨htls, hcl, get_session_hit t (create_session t s).2 (create_session t s).1 htls hcl⟩
  cases hts : s.tls t with
  | some sid =>
    by_cases hc : s.closed sid = true
    · rw [get_session_closed t s sid hts hc]
      exact hcreate
    · have hc' : s.closed sid = false := by
        cases hcc : s.closed sid with
        | true => exact absurd hcc hc
        | false => rfl
      rw [get_session_hit t s sid hts hc']
      exact ⟨hts, hc', get_session_hit t s sid hts hc'⟩
  | none =>
    rw [get_session_none t s hts]
    exact hcreate

/-- C9.  Thread-channel exclusivity (P6): in every reachable state of the
pooled client, (a) the thread-local slots of two distinct threads never hold
the same session, so T distinct threads obtain T distinct channels; (b) at
most one live (unclosed) session exists per owning thread; (c) a thread whose
slot holds a live session gets exactly that session back, with the state
unchanged; (d) an immediate repeated `_get_session` call from the same thread
returns the same session instance and changes nothing. -/
theorem thread_channel_exclusivity (s : ClientState) (hs : ClientReach s) :
    (∀ t1 t2 sid1 sid2, t1 ≠ t2 → s.tls t1 = some sid1 → s.tls t2 = some sid2 →
       sid1 ≠ sid2) ∧
    (∀ sid1 sid2, sid1 < s.next_sid → sid2 < s.next_sid →
       s.closed sid1 = false → s.closed sid2 = false →
       s.owner sid1 = s.owner sid2 → sid1 = sid2) ∧
    (∀ t sid, s.tls t = some sid → s.closed sid = false → get_session t s = (sid, s)) ∧
    (∀ t, get_session t (get_session t s).2 = ((get_session t s).1, (get_session t s).2)) := by
  have hinv := client_reach_inv s hs
  obtain ⟨h1, h2, h3, h4, h5⟩ := hinv
  refine ⟨?_, ?_, ?_, ?_⟩
  · intro t1 t2 sid1 sid2 hne htls1 htls2 hcontra
    have ho1 := (h1 t1 sid1 htls1).1
    have ho2 := (h1 t2 sid2 htls2).1
    rw [hcontra, ho2] at ho1
    exact hne ho1.symm
  · intro sid1 sid2 hlt1 hlt2 hcl1 hcl2 howner
    have ht1 := h3 sid1 hlt1 hcl1
    have ht2 := h3 sid2 hlt2 hcl2
    rw [howner, ht2] at ht1
    injection ht1 with hh
    exact hh.symm
  · intro t sid htls hcl
    exact get_session_hit t s sid htls hcl
  · intro t
    exact (get_session_stable t s ⟨h1, h2, h3, h4, h5⟩).2.2

/-- Witness for C9 at `c9_state`: threads 0 and 1 hold the distinct sessions
0 and 1, and a repeated call from thread 1 returns session 1 unchanged. -/
theorem thread_channel_exclusivity_witness :
    c9_state.tls 0 = some 0 ∧ c9_state.tls 1 = some 1 ∧ (0 : Nat) ≠ 1 ∧
    get_session 1 c9_state = (1, c9_state) :=
  ⟨rfl, rfl,
   (thread_channel_exclusivity c9_state
     (ClientReach.step_get 1 (ClientReach.step_get 0 ClientReach.init))).1 0 1 0 1
     (by decide) rfl rfl,
   (thread_channel_exclusivity c9_state
     (ClientReach.step_get 1 (ClientReach.step_get 0 ClientReach.init))).2.2.1 1 1 rfl rfl⟩
